import Mathlib

/-!
# LVM volume driver: size resolution, oracle and lifecycle engine

A shallow embedding of `src/daemon/lvm_volume_driver.go` and of the request
handlers of `src/daemon/daemon.go`.

* A Go `string` is a sequence of bytes.  It is embedded as `List Char`, one
  list element per byte; every operation the driver uses (`==`, `+`, `len`,
  slicing, `strings.Contains`, `strings.Split`, `strings.Trim` with an ASCII
  cut set, the ASCII regular expression of `getSizeFromName`) works byte by
  byte, so the embedding is uniform in the element type.
* Go `int` is the 64-bit signed integer of the platforms the daemon targets;
  it is embedded as `Int`, with `wrapInt` applied where the code multiplies.
* A Go `(value, error)` result is a pair whose second component is
  `Option GoString` (the message of the error, `none` for `nil`).
* External effects (spawned programs, `os.MkdirAll`) are answered by a
  `World`, which may answer differently as the history of effects grows.
  Every operation takes the trace of effects so far and returns the extended
  trace.  Log output (`log.Print`, `fmt.Printf`) is not part of the model.
* A Go run-time panic (index or slice bounds out of range) is the `panic`
  constructor of `Res`.
-/

namespace LvmVolumeDriver

/-- Bytes of a Go string, one list element per byte. -/
abbrev GoString := List Char

/-! ## Library functions used by the driver -/

/-- Largest `uint64`, the bound `strconv.ParseUint` checks against. -/
def maxUint64 : Nat := 2 ^ 64 - 1

/-- Largest `int` (64 bit). -/
def maxInt : Int := 2 ^ 63 - 1

/-- Smallest `int` (64 bit). -/
def minInt : Int := -(2 ^ 63)

/-- Two's complement wrap-around of 64-bit `int` arithmetic. -/
def wrapInt (x : Int) : Int := (x + 2 ^ 63) % 2 ^ 64 - 2 ^ 63

/-- The two errors of `strconv`: `ErrSyntax` and `ErrRange`. -/
inductive NumError where
  | syntaxErr
  | rangeErr
  deriving DecidableEq, Repr

/-- Value of one ASCII digit byte. -/
def digitVal (c : Char) : Nat := c.toNat - 48

/-- Digit loop of `strconv.ParseUint(s, 10, 64)`: a byte that is no decimal
digit is a syntax error; a value above `maxUint64` is a range error, reported
as soon as it is reached (the rest of the input is then not inspected). -/
def parseUintLoop : Nat → GoString → Except NumError Nat
  | n, [] => .ok n
  | n, c :: cs =>
    if c.isDigit then
      if n * 10 + digitVal c > maxUint64 then .error .rangeErr
      else parseUintLoop (n * 10 + digitVal c) cs
    else .error .syntaxErr

/-- Body of `strconv.ParseUint(s, 10, 64)`: the empty string is a syntax error. -/
def parseUint (s : GoString) : Except NumError Nat :=
  match s with
  | [] => .error .syntaxErr
  | _ => parseUintLoop 0 s

/-- Body of `strconv.ParseInt(s, 10, 0)` after the sign has been split off:
a syntax error gives 0, a range error or a magnitude outside `int` gives the
nearest bound. -/
def parseIntSigned (neg : Bool) (s : GoString) : Int × Option NumError :=
  match parseUint s with
  | .error .syntaxErr => (0, some .syntaxErr)
  | .error .rangeErr => (if neg then minInt else maxInt, some .rangeErr)
  | .ok un =>
    if !neg && un ≥ 2 ^ 63 then (maxInt, some .rangeErr)
    else if neg && un > 2 ^ 63 then (minInt, some .rangeErr)
    else (if neg then -(un : Int) else (un : Int), none)

/-- Result of `strconv.Atoi`: the value and the error.  A leading sign is
split off, the rest goes through `ParseInt`. -/
def atoi (s : GoString) : Int × Option NumError :=
  match s with
  | [] => (0, some .syntaxErr)
  | c :: rest =>
    if c = '+' then parseIntSigned false rest
    else if c = '-' then parseIntSigned true rest
    else parseIntSigned false s

/-- Result of `strconv.Itoa`: decimal digits, with a leading minus sign for a
negative number. -/
def itoa (i : Int) : GoString :=
  if i < 0 then '-' :: Nat.toDigits 10 i.natAbs else Nat.toDigits 10 i.toNat

/-- Number denoted by a string of decimal digits. -/
def decimalValue (d : GoString) : Nat :=
  d.foldl (fun n c => n * 10 + digitVal c) 0

/-! ## Size embedded in a volume name -/

/-- Anchored attempt to match the pattern `-oS([0-9]+)([MG])?$` at the start
of `s`; the result holds the submatches `m[1]` and `m[2]`.  The digit group is
greedy and can give nothing back: what follows the longest run of digits is
not a digit, so no shorter run can be followed by `[MG]` or the end of the
text either. -/
def matchSizeAt (s : GoString) : Option (GoString × GoString) :=
  match s with
  | c0 :: c1 :: c2 :: rest =>
    if c0 = '-' ∧ c1 = 'o' ∧ c2 = 'S' then
      let ds := rest.takeWhile Char.isDigit
      let tail := rest.dropWhile Char.isDigit
      if ds = [] then none
      else if tail = [] ∨ tail = ['M'] ∨ tail = ['G'] then some (ds, tail)
      else none
    else none
  | _ => none

/-- Leftmost match, as `regexp.FindStringSubmatch` finds it: the pattern is
tried at every start position from left to right. -/
def findSizeSubmatch : GoString → Option (GoString × GoString)
  | [] => none
  | c :: cs =>
    match matchSizeAt (c :: cs) with
    | some m => some m
    | none => findSizeSubmatch cs

/-- Source: `getSizeFromName`. -/
def getSizeFromName (name : GoString) : Int :=
  match findSizeSubmatch name with
  | some (m1, m2) =>
    let factor : Int := if m2 = ['G'] then 1024 else 1
    let v := (atoi m1).1
    wrapInt (v * factor)
  | none => 0

/-! ## Strings, lines and paths -/

/-- Fields of `strings.Split(s, sep)` for a one-byte separator: a string with
`n` separators has `n + 1` fields. -/
def splitOn (sep : Char) : GoString → List GoString
  | [] => [[]]
  | c :: cs =>
    if c = sep then [] :: splitOn sep cs
    else
      match splitOn sep cs with
      | f :: fs => (c :: f) :: fs
      | [] => [[c]]

/-- Result of `strings.Contains(s, substr)`. -/
def stringsContains : GoString → GoString → Bool
  | [], substr => substr.isEmpty
  | c :: cs, substr => substr.isPrefixOf (c :: cs) || stringsContains cs substr

/-- Result of `strings.Trim(s, cutset)` for an ASCII cut set: leading and
trailing bytes that are in the cut set are removed. -/
def stringsTrim (s cutset : GoString) : GoString :=
  ((s.dropWhile cutset.contains).reverse.dropWhile cutset.contains).reverse

/-- Token limit of `bufio.Scanner` (`bufio.MaxScanTokenSize`). -/
def maxScanTokenSize : Nat := 64 * 1024

/-- The `dropCR` of `bufio.ScanLines`: one trailing carriage return is removed. -/
def dropCR (l : GoString) : GoString :=
  if l.getLast? = some '\r' then l.dropLast else l

/-- Lines a `bufio.Scanner` (default split function `ScanLines`) yields for
the text `s`, in order: the text is cut at every newline, an empty piece after
the last newline is no line, scanning stops at the first line that does not
fit the token buffer, and a trailing carriage return is dropped from a line. -/
def scanLines (s : GoString) : List GoString :=
  let segs := splitOn '\n' s
  let raw := if segs.getLast? = some [] then segs.dropLast else segs
  (raw.takeWhile (fun l => l.length < maxScanTokenSize)).map dropCR

/-- Element pass of `filepath.Clean`: empty and `.` elements are skipped, a
`..` element removes the element before it; where there is nothing to remove
it is dropped in a rooted path and kept in a relative one.  `stack` holds the
elements kept so far, the latest first. -/
def cleanElems (rooted : Bool) : List GoString → List GoString → List GoString
  | stack, [] => stack.reverse
  | stack, e :: es =>
    if e = [] ∨ e = ['.'] then cleanElems rooted stack es
    else if e = ['.', '.'] then
      match stack with
      | top :: below =>
        if !rooted && top = ['.', '.'] then cleanElems rooted (e :: stack) es
        else cleanElems rooted below es
      | [] => if rooted then cleanElems rooted [] es else cleanElems rooted [e] es
    else cleanElems rooted (e :: stack) es

/-- Result of `filepath.Clean` on Unix. -/
def filepathClean (path : GoString) : GoString :=
  match path with
  | [] => ['.']
  | c :: _ =>
    let rooted : Bool := c = '/'
    let body := List.intercalate ['/'] (cleanElems rooted [] (splitOn '/' path))
    let out := if rooted then '/' :: body else body
    if out = [] then ['.'] else out

/-- Result of `filepath.Join` on Unix: leading empty elements are ignored, the
rest is joined with slashes and cleaned; no non-empty element gives `""`. -/
def filepathJoin : List GoString → GoString
  | [] => []
  | e :: es =>
    if e = [] then filepathJoin es
    else filepathClean (List.intercalate ['/'] (e :: es))

/-! ## The external world -/

/-- How `cmd.Run` ended: the program exited with a status (status 0 is the
`nil` error, any other status is an `*exec.ExitError`), or `Run` failed with
another error. -/
inductive Outcome where
  | exited (code : Int)
  | runError
  deriving DecidableEq, Repr

/-- What one spawned program produced. -/
structure ProcResult where
  stdout : GoString
  stderr : GoString
  outcome : Outcome
  deriving DecidableEq, Repr

/-- An effect on the outside world. -/
inductive Action where
  | exec (cmdName : GoString) (args : List GoString)
  | mkdirAll (path : GoString) (perm : Nat)
  deriving DecidableEq, Repr

/-- The effects performed so far, oldest first. -/
abbrev Trace := List Action

/-- The outside world: its answer to an effect may depend on all effects
performed before it. -/
structure World where
  proc : Trace → GoString → List GoString → ProcResult
  mkdir : Trace → GoString → Nat → Option GoString

deriving instance DecidableEq for Except

/-- A value, or a Go run-time panic. -/
inductive Res (α : Type) where
  | val (a : α)
  | panic
  deriving DecidableEq, Repr

/-- Source: `ExecStatus`. -/
structure ExecStatus where
  cmd : GoString
  stdout : GoString
  stderr : GoString
  status : Int
  deriving DecidableEq, Repr

/-- Source: `ExecStatus.String`. -/
def ExecStatus.String (e : ExecStatus) : GoString :=
  "Command \"".toList ++ e.cmd ++ "\" failed with status: ".toList ++ itoa e.status
    ++ ": ".toList ++ e.stdout ++ e.stderr

/-- Source: `runCommand`. -/
def runCommand (w : World) (tr : Trace) (cmdName : GoString) (args : List GoString) :
    Trace × ExecStatus :=
  let vcmd := args.foldl (fun acc v => acc ++ " ".toList ++ v) cmdName
  let r := w.proc tr cmdName args
  let tr1 := tr ++ [Action.exec cmdName args]
  match r.outcome with
  | .exited code =>
    if code = 0 then (tr1, { cmd := vcmd, stdout := r.stdout, stderr := [], status := 0 })
    else (tr1, { cmd := vcmd, stdout := r.stdout, stderr := r.stderr, status := code })
  | .runError => (tr1, { cmd := vcmd, stdout := r.stdout, stderr := r.stderr, status := 1 })

/-! ## The volume driver -/

/-- Source: `Volume`. -/
structure Volume where
  Name : GoString
  Mountpoint : GoString
  deriving DecidableEq, Repr

/-- Source: `VolumeDriver`. -/
structure VolumeDriver where
  MountRoot : GoString
  LvmDevice : GoString
  VolumeGroupName : GoString
  DefaultLogicalVolumeSize : Int
  Debug : Bool

/-- Source: `arrayToMap`; the map is used for key lookup only. -/
def arrayToMap (names : List GoString) : GoString → Bool :=
  fun v => names.contains v

/-- Source: `stringInSlice`. -/
def stringInSlice (a : GoString) (list : List Volume) : Bool :=
  list.any (fun b => b.Name = a)

/-- Source: `makefs`. -/
def makefs (w : World) (tr : Trace) (device : GoString) : Trace × Option GoString :=
  let r := runCommand w tr "mkfs.ext4".toList [device]
  if r.2.status ≠ 0 then
    (r.1, some ("Cannot create filesystem on volume ".toList ++ itoa r.2.status
      ++ ": ".toList ++ r.2.stderr))
  else (r.1, none)

/-- Source: `mount`. -/
def mount (w : World) (tr : Trace) (device dir : GoString) (options : List GoString) :
    Trace × Option GoString :=
  let allOptions := options ++ [device, dir]
  let r := runCommand w tr "mount".toList allOptions
  if r.2.status ≠ 0 then
    (r.1, some ("Cannot mount device ".toList ++ device ++ ": ".toList ++ r.2.stderr))
  else (r.1, none)

/-- Source: `getMountpoint`. -/
def getMountpoint (d : VolumeDriver) (name : GoString) : GoString :=
  filepathJoin [d.MountRoot, name]

/-- Source: `getDeviceName`. -/
def getDeviceName (d : VolumeDriver) (name : GoString) : GoString :=
  filepathJoin ["/dev".toList, d.VolumeGroupName, name]

/-- Source: `createVolume`. -/
def createVolume (d : VolumeDriver) (w : World) (tr : Trace) (name : GoString) (size : Int) :
    Trace × Option GoString :=
  let sizeStr := itoa size ++ "M".toList
  let r := runCommand w tr "lvcreate".toList
    ["-L".toList, sizeStr, "-n".toList, name, d.VolumeGroupName]
  if r.2.status ≠ 0 then
    (r.1, some ("Cannot create volume, return code is ".toList ++ itoa r.2.status
      ++ ": ".toList ++ r.2.stderr))
  else (r.1, none)

/-- Source: `removeMountpoint`. -/
def removeMountpoint (d : VolumeDriver) (w : World) (tr : Trace) (volume : GoString) :
    Trace × Option GoString :=
  let mp := getMountpoint d volume
  let r := runCommand w tr "rmdir".toList [mp]
  if r.2.status ≠ 0 then
    (r.1, some ("Volume ".toList ++ volume
      ++ " removed but deletion of mountpoint failed: ".toList ++ r.2.String))
  else (r.1, none)

/-- Loop body of `getMountedVolumes` over the scanned lines: a line that
contains the mount root contributes `mountpath[len(MountRoot)+1:len(mountpath)]`
where `mountpath` is `strings.Split(line, " ")[2]`.  The index expression
panics on a line with fewer than three fields, the slice expression panics
when `len(MountRoot)+1` exceeds `len(mountpath)`. -/
def mountedLoop (mountRoot : GoString) : List GoString → List GoString → Res (List GoString)
  | [], volumes => .val volumes
  | line :: rest, volumes =>
    if stringsContains line mountRoot then
      match (splitOn ' ' line).get? 2 with
      | none => .panic
      | some mountpath =>
        if mountRoot.length + 1 > mountpath.length then .panic
        else mountedLoop mountRoot rest (volumes ++ [mountpath.drop (mountRoot.length + 1)])
    else mountedLoop mountRoot rest volumes

/-- Source: `getMountedVolumes`.  The Go result `(*[]string, error)` holds
either the names or the error. -/
def getMountedVolumes (d : VolumeDriver) (w : World) (tr : Trace) :
    Trace × Res (Except GoString (List GoString)) :=
  let r := runCommand w tr "mount".toList []
  if r.2.status = 0 then
    match mountedLoop d.MountRoot (scanLines r.2.stdout) [] with
    | .val volumes => (r.1, .val (.ok volumes))
    | .panic => (r.1, .panic)
  else
    (r.1, .val (.error ("Unable to retrieve mountpoints. Return code: ".toList
      ++ itoa r.2.status ++ ": ".toList ++ r.2.stderr)))

/-- Source: `isMounted`. -/
def isMounted (d : VolumeDriver) (w : World) (tr : Trace) (volume : GoString) :
    Trace × Res (Bool × Option GoString) :=
  match getMountedVolumes d w tr with
  | (tr1, .panic) => (tr1, .panic)
  | (tr1, .val (.error err)) => (tr1, .val (false, some err))
  | (tr1, .val (.ok vols)) => (tr1, .val (vols.any (fun v => v = volume), none))

/-- Source: `listVolumes`.  The Go result `(*[]Volume, error)` holds either the
volumes or the error. -/
def listVolumes (d : VolumeDriver) (w : World) (tr : Trace) :
    Trace × Res (Except GoString (List Volume)) :=
  match getMountedVolumes d w tr with
  | (tr1, .panic) => (tr1, .panic)
  | (tr1, .val (.error err1)) => (tr1, .val (.error err1))
  | (tr1, .val (.ok mounted)) =>
    let vmap := arrayToMap mounted
    let r := runCommand w tr1 "lvs".toList
      ["--noheadings".toList, "-o".toList, "lv_name".toList, "-v".toList, d.VolumeGroupName]
    if r.2.status ≠ 0 then (r.1, .val (.error r.2.String))
    else
      (r.1, .val (.ok ((scanLines r.2.stdout).map (fun text =>
        let s := stringsTrim text "\n ".toList
        { Name := s, Mountpoint := if vmap s then getMountpoint d s else [] }))))

/-- Source: `existsVolume`. -/
def existsVolume (d : VolumeDriver) (w : World) (tr : Trace) (name : GoString) :
    Trace × Res (Bool × Option GoString) :=
  match listVolumes d w tr with
  | (tr1, .panic) => (tr1, .panic)
  | (tr1, .val (.ok vols)) => (tr1, .val (stringInSlice name vols, none))
  | (tr1, .val (.error err)) => (tr1, .val (false, some err))

/-- Source: `unmount`. -/
def unmount (w : World) (tr : Trace) (device : GoString) : Trace × Option GoString :=
  let r := runCommand w tr "umount".toList [device]
  if r.2.status ≠ 0 then
    (r.1, some ("Cannot unmount device ".toList ++ device ++ ": ".toList ++ r.2.stderr))
  else (r.1, none)

/-- Source: `removeLogicalVolume`. -/
def removeLogicalVolume (d : VolumeDriver) (w : World) (tr : Trace) (volume : GoString) :
    Trace × Res (Option GoString) :=
  let device := getDeviceName d volume
  match isMounted d w tr volume with
  | (tr1, .panic) => (tr1, .panic)
  | (tr1, .val (mounted, err)) =>
    if mounted then (tr1, .val (some ("Volume ".toList ++ volume ++ " is still mounted".toList)))
    else if err ≠ none then (tr1, .val err)
    else
      let r := runCommand w tr1 "lvremove".toList ["-f".toList, device]
      if r.2.status ≠ 0 then (r.1, .val (some r.2.String))
      else
        let rm := removeMountpoint d w r.1 volume
        (rm.1, .val none)

/-- Source: `DockerCreateVolume`.  The Go map of options is the lookup function
of its keys. -/
def DockerCreateVolume (d : VolumeDriver) (w : World) (tr : Trace) (name : GoString)
    (options : GoString → Option GoString) : Trace × Res (Option GoString) :=
  let sizeFromName := getSizeFromName name
  let size : Int :=
    match options "size".toList with
    | some val => (atoi val).1
    | none => if sizeFromName ≠ 0 then sizeFromName else d.DefaultLogicalVolumeSize
  match existsVolume d w tr name with
  | (tr1, .panic) => (tr1, .panic)
  | (tr1, .val (found, err)) =>
    if !found && err = none then
      match createVolume d w tr1 name size with
      | (tr2, some err2) => (tr2, .val (some err2))
      | (tr2, none) =>
        let mk := makefs w tr2 (getDeviceName d name)
        (mk.1, .val mk.2)
    else if err ≠ none then (tr1, .val err)
    else (tr1, .val (some ("Volume ".toList ++ name ++ " already exists".toList)))

/-- Source: `DockerRemoveVolume`. -/
def DockerRemoveVolume (d : VolumeDriver) (w : World) (tr : Trace) (name : GoString) :
    Trace × Res (Option GoString) :=
  match existsVolume d w tr name with
  | (tr1, .panic) => (tr1, .panic)
  | (tr1, .val (yes, err)) =>
    if yes then
      match isMounted d w tr1 name with
      | (tr2, .panic) => (tr2, .panic)
      | (tr2, .val (mounted, err2)) =>
        if mounted && err2 = none then
          (tr2, .val (some ("Volume ".toList ++ name ++ " is still mounted".toList)))
        else if err2 ≠ none then (tr2, .val err2)
        else removeLogicalVolume d w tr2 name
    else if err ≠ none then (tr1, .val err)
    else
      (tr1, .val (some ("Cannot delete volume ".toList ++ name
        ++ ": it does not exist".toList)))

/-- Source: `DockerMountVolume`.  The Go result `(*string, error)` is a pair of
an optional mountpoint and an optional error. -/
def DockerMountVolume (d : VolumeDriver) (w : World) (tr : Trace) (name : GoString) :
    Trace × Res (Option GoString × Option GoString) :=
  let mountpoint := getMountpoint d name
  let device := getDeviceName d name
  match isMounted d w tr name with
  | (tr1, .panic) => (tr1, .panic)
  | (tr1, .val (mounted, error)) =>
    if mounted && error = none then (tr1, .val (some mountpoint, none))
    else if error ≠ none then (tr1, .val (none, error))
    else
      let tr2 := tr1 ++ [Action.mkdirAll mountpoint 0o750]
      match w.mkdir tr1 mountpoint 0o750 with
      | some mkErr => (tr2, .val (none, some mkErr))
      | none =>
        match mount w tr2 device mountpoint [] with
        | (tr3, some mountErr) => (tr3, .val (none, some mountErr))
        | (tr3, none) => (tr3, .val (some mountpoint, none))

/-- Source: `DockerUnmountVolume`. -/
def DockerUnmountVolume (d : VolumeDriver) (w : World) (tr : Trace) (name : GoString) :
    Trace × Option GoString :=
  let device := getDeviceName d name
  match unmount w tr device with
  | (tr1, some _) =>
    let rm := removeMountpoint d w tr1 name
    (rm.1, none)
  | (tr1, none) => removeMountpoint d w tr1 name

/-- Source: `DockerVolumePath`. -/
def DockerVolumePath (d : VolumeDriver) (w : World) (tr : Trace) (name : GoString) :
    Trace × Res (Option GoString × Option GoString) :=
  match isMounted d w tr name with
  | (tr1, .panic) => (tr1, .panic)
  | (tr1, .val (mounted, err)) =>
    if mounted then (tr1, .val (some (getMountpoint d name), none))
    else if err ≠ none then (tr1, .val (none, err))
    else (tr1, .val (none, some ("Volume ".toList ++ name ++ " not mounted".toList)))

/-- Source: `dockerGetVolume`. -/
def dockerGetVolume (d : VolumeDriver) (w : World) (tr : Trace) (name : GoString) :
    Trace × Res (Option Volume × Option GoString) :=
  match existsVolume d w tr name with
  | (tr1, .panic) => (tr1, .panic)
  | (tr1, .val (found, err)) =>
    if !found then
      (tr1, .val (none, some ("Volume ".toList ++ name ++ " does not exist".toList)))
    else if err ≠ none then (tr1, .val (none, err))
    else
      match isMounted d w tr1 name with
      | (tr2, .panic) => (tr2, .panic)
      | (tr2, .val (mounted, err2)) =>
        if mounted && err2 = none then
          (tr2, .val (some { Name := name, Mountpoint := getMountpoint d name }, none))
        else (tr2, .val (some { Name := name, Mountpoint := [] }, err2))

/-- Source: `dockerListVolume`.  The Go map with the keys `Volumes` and `Err`
is a pair: the value under `Volumes` (absent on failure) and the one under
`Err`; the second result is the error. -/
def dockerListVolume (d : VolumeDriver) (w : World) (tr : Trace) :
    Trace × Res ((Option (List Volume) × GoString) × Option GoString) :=
  match listVolumes d w tr with
  | (tr1, .panic) => (tr1, .panic)
  | (tr1, .val (.error err)) => (tr1, .val ((none, err), some err))
  | (tr1, .val (.ok list)) => (tr1, .val ((some list, []), none))

/-! ## Programs a driver run spawned -/

/-- Names of the programs spawned in a trace, oldest first. -/
def commandsRun (tr : Trace) : List GoString :=
  tr.filterMap (fun a => match a with
    | .exec cmdName _ => some cmdName
    | .mkdirAll _ _ => none)



/-! ## Predicates of the specification -/

/-- A name ends in the pattern `-oS<digits>`, optionally followed by `M` or
`G` (the words of the specification). -/
def EndsInSizePattern (name : GoString) : Prop :=
  ∃ p d sfx, name = p ++ "-oS".toList ++ d ++ sfx ∧ d ≠ [] ∧ (∀ c ∈ d, c.isDigit = true) ∧
    (sfx = [] ∨ sfx = ['M'] ∨ sfx = ['G'])

/-- The mount-table listing, as an effect. -/
def mountListing : Action := .exec "mount".toList []

/-- The volume-manager listing of the driver's volume group, as an effect. -/
def lvsListing (d : VolumeDriver) : Action :=
  .exec "lvs".toList
    ["--noheadings".toList, "-o".toList, "lv_name".toList, "-v".toList, d.VolumeGroupName]

/-- The `lvcreate` effect for a volume of `size` megabytes. -/
def lvcreateAction (d : VolumeDriver) (name : GoString) (size : Int) : Action :=
  .exec "lvcreate".toList
    ["-L".toList, itoa size ++ "M".toList, "-n".toList, name, d.VolumeGroupName]

/-- The `mkfs.ext4` effect on the device of a volume. -/
def mkfsAction (d : VolumeDriver) (name : GoString) : Action :=
  .exec "mkfs.ext4".toList [getDeviceName d name]

/-- Options map with the single key `size`. -/
def sizeOption (val : GoString) : GoString → Option GoString :=
  fun k => if k = "size".toList then some val else none

/-- Options map without keys. -/
def noOptions : GoString → Option GoString := fun _ => none

/-! ## Worlds used in the examples -/

/-- A driver configuration: mount root `/mnt/lvm`, volume group `vg`, default
size 256 MB. -/
def exampleDriver : VolumeDriver :=
  { MountRoot := "/mnt/lvm".toList, LvmDevice := "/dev/sdb".toList,
    VolumeGroupName := "vg".toList, DefaultLogicalVolumeSize := 256, Debug := false }

/-- A world whose `mount` prints `mountOut` and whose `lvs` prints `lvsOut`,
both with exit status 0; every other program ends with `other`, and creating a
directory succeeds. -/
def listingWorld (mountOut lvsOut : GoString) (other : Outcome) : World :=
  { proc := fun _ cmdName args =>
      if cmdName = "mount".toList ∧ args = [] then
        { stdout := mountOut, stderr := [], outcome := .exited 0 }
      else if cmdName = "lvs".toList then
        { stdout := lvsOut, stderr := [], outcome := .exited 0 }
      else { stdout := [], stderr := "failed".toList, outcome := other },
    mkdir := fun _ _ _ => none }

/-- The `lvremove` effect on the device of a volume. -/
def lvremoveAction (d : VolumeDriver) (name : GoString) : Action :=
  .exec "lvremove".toList ["-f".toList, getDeviceName d name]

/-- The `rmdir` effect on the mountpoint of a volume. -/
def rmdirAction (d : VolumeDriver) (name : GoString) : Action :=
  .exec "rmdir".toList [getMountpoint d name]

/-- The `umount` effect on the device of a volume. -/
def umountAction (d : VolumeDriver) (name : GoString) : Action :=
  .exec "umount".toList [getDeviceName d name]

/-- The message of the still-mounted error. -/
def stillMountedError (name : GoString) : GoString :=
  "Volume ".toList ++ name ++ " is still mounted".toList

/-- A mount table with the single entry of `vol1` under `/mnt/lvm`. -/
def mountTableVol1 : GoString :=
  "/dev/mapper/vg-vol1 on /mnt/lvm/vol1 type ext4 (rw,relatime)\n".toList

/-- A world like `listingWorld` with successful listings, in which `rmdir`
exits with status 1 and every other program with status 0. -/
def rmdirFailingWorld (mountOut lvsOut : GoString) : World :=
  { proc := fun _ cmdName args =>
      if cmdName = "mount".toList ∧ args = [] then
        { stdout := mountOut, stderr := [], outcome := .exited 0 }
      else if cmdName = "lvs".toList then
        { stdout := lvsOut, stderr := [], outcome := .exited 0 }
      else if cmdName = "rmdir".toList then
        { stdout := [], stderr := "rmdir: failed".toList, outcome := .exited 1 }
      else { stdout := [], stderr := [], outcome := .exited 0 },
    mkdir := fun _ _ _ => none }

/-- A mount table in which the mount root `/mnt/lvm` is itself a mount target. -/
def mountTableRootMounted : GoString :=
  "/dev/sdb1 on /mnt/lvm type ext4 (rw,relatime)\n".toList

/-- The arguments of the volume-manager listing. -/
def lvsArgs (d : VolumeDriver) : List GoString :=
  ["--noheadings".toList, "-o".toList, "lv_name".toList, "-v".toList, d.VolumeGroupName]

/-- The `Volume` that `listVolumes` builds from one line of the `lvs` output,
given the names of the mounted volumes. -/
def volumeOfLine (d : VolumeDriver) (mounted : List GoString) (text : GoString) : Volume :=
  { Name := stringsTrim text "\n ".toList,
    Mountpoint :=
      if stringsTrim text "\n ".toList ∈ mounted then
        getMountpoint d (stringsTrim text "\n ".toList)
      else [] }

/-- The third space-separated field of a line of the mount table, its mount
target; empty when the line has fewer than three fields. -/
def mountTarget (line : GoString) : GoString :=
  ((splitOn ' ' line).get? 2).getD []

/-- The name `getMountedVolumes` cuts out of a line: the mount target without
its first `len(MountRoot)+1` bytes. -/
def volumeOfMountLine (mountRoot line : GoString) : GoString :=
  (mountTarget line).drop (mountRoot.length + 1)

/-- The line has a third field and that field is long enough for the slice
expression of `getMountedVolumes`. -/
def ParsableMountLine (mountRoot line : GoString) : Prop :=
  ∃ mp, (splitOn ' ' line).get? 2 = some mp ∧ mountRoot.length + 1 ≤ mp.length

instance (mountRoot line : GoString) : Decidable (ParsableMountLine mountRoot line) :=
  match h : (splitOn ' ' line).get? 2 with
  | some mp =>
    if hl : mountRoot.length + 1 ≤ mp.length then isTrue ⟨mp, h, hl⟩
    else isFalse (fun ⟨mp2, h2, hl2⟩ => by rw [h] at h2; cases h2; exact hl hl2)
  | none => isFalse (fun ⟨mp2, h2, _⟩ => by rw [h] at h2; cases h2)

/-- A mount table with a file under the mount root mounted elsewhere, and with
a mount target two levels below the mount root. -/
def mountTableForeign : GoString :=
  ("/mnt/lvm/disk.img on /backups/vol1 type ext4 (rw)\n"
    ++ "/dev/mapper/vg-a on /mnt/lvm/a/b type ext4 (rw)\n").toList

/-- The message of the not-found error of `dockerGetVolume`. -/
def notFoundError (name : GoString) : GoString :=
  "Volume ".toList ++ name ++ " does not exist".toList

/-- The message of the not-mounted error of `DockerVolumePath`. -/
def notMountedError (name : GoString) : GoString :=
  "Volume ".toList ++ name ++ " not mounted".toList

/-- A world in which every program, the listings included, exits with status
32 and prints `denied` on its standard error. -/
def failingWorld : World :=
  { proc := fun _ _ _ => { stdout := [], stderr := "denied".toList, outcome := .exited 32 },
    mkdir := fun _ _ _ => none }

/-- A mount table whose only line is a single field under the mount root. -/
def mountTableOneField : GoString := "/mnt/lvm/vol1\n".toList

/-- A mount table in which the mount root occurs in the device field only: a
file below the mount root is mounted at `/data`. -/
def mountTableDeviceOnly : GoString :=
  "/mnt/lvm/disk.img on /data type ext4 (rw,relatime)\n".toList

/-- A single path element that names an entry of a directory: not empty,
without a slash, and neither `.` nor `..`. -/
def PlainElement (e : GoString) : Prop :=
  e ≠ [] ∧ '/' ∉ e ∧ e ≠ ['.'] ∧ e ≠ ['.', '.']

/-- The clean path `p` lies strictly below the directory with the clean path
`root`: below `/` lie the absolute paths other than `/`; below `.` lie the
relative paths other than `.` that do not start with a `..` element; below any
other `root` lie the paths that are `root`, a slash and a non-empty rest. -/
def strictlyBelow (root p : GoString) : Bool :=
  if root = ['/'] then ['/'].isPrefixOf p && decide (1 < p.length)
  else if root = ['.'] then
    !p.isEmpty && !(['/'].isPrefixOf p) && decide (p ≠ ['.']) && decide (p ≠ ['.', '.'])
      && !(['.', '.', '/'].isPrefixOf p)
  else (root ++ ['/']).isPrefixOf p && decide (root.length + 1 < p.length)

/-! ## The protocol layer (`daemon.go`)

The handlers work on the driver `volumeDriver` that `StartServer` builds from
the daemon's fields; it is the parameter `d`.  The mutex of the daemon has no
effect on a single call and is not part of the model, and neither is the debug
log. -/

/-- A JSON value as `encoding/json` decodes it into an `interface{}`. -/
inductive Json where
  | null
  | bool (b : Bool)
  | number (text : GoString)
  | str (s : GoString)
  | arr (items : List Json)
  | obj (fields : List (GoString × Json))

/-- The unread part of the body of an `http.Request`.  `body` lists what
successive calls `json.NewDecoder(r.Body).Decode` obtain from it, each with a
decoder of its own: a JSON value, or the error message for malformed text.
When the list is used up the body is at its end and `Decode` fails with
`io.EOF`.  A body that holds one JSON document and nothing else is the list of
that one value: the first decoder reads the document, a later decoder finds the
end of the body. -/
structure Request where
  body : List (Except GoString Json)

/-- The request whose body is the single JSON document `doc`. -/
def singleDocumentRequest (doc : Json) : Request := { body := [.ok doc] }

/-- Index expression `doc[key]` on the Go map decoded from a JSON object whose
members are `doc`: of two members with the same key the later one counts. -/
def mapLookup (doc : List (GoString × Json)) (key : GoString) : Option Json :=
  (doc.reverse.find? (fun kv => kv.1 = key)).map (fun kv => kv.2)

/-- The word `encoding/json` uses for a value in an `UnmarshalTypeError`. -/
def jsonKind : Json → GoString
  | .null => "null".toList
  | .bool _ => "bool".toList
  | .number _ => "number".toList
  | .str _ => "string".toList
  | .arr _ => "array".toList
  | .obj _ => "object".toList

/-- Source: `decodeRequest` (`ensureContentType` always returns `nil`).  The
value is decoded into a `map[string]interface{}`: an object gives its map,
`null` leaves the map `nil` (which reads like the empty map), any other value
is a type error. -/
def decodeRequest (r : Request) : Request × Except GoString (List (GoString × Json)) :=
  match r.body with
  | [] => (r, .error "EOF".toList)
  | .error msg :: rest => ({ body := rest }, .error msg)
  | .ok (.obj fields) :: rest => ({ body := rest }, .ok fields)
  | .ok .null :: rest => ({ body := rest }, .ok [])
  | .ok v :: rest =>
    ({ body := rest },
      .error ("json: cannot unmarshal ".toList ++ jsonKind v
        ++ " into Go value of type map[string]interface {}".toList))

/-- Source: `getValue`. -/
def getValue (doc : List (GoString × Json)) (key : GoString) : Option GoString :=
  match mapLookup doc key with
  | some (.str value) => some value
  | _ => none

/-- Source: `getMap`. -/
def getMap (doc : List (GoString × Json)) (key : GoString) :
    Option (List (GoString × Json)) :=
  match mapLookup doc key with
  | some (.obj m) => some m
  | _ => none

/-- Source: `getOptions`; `none` is the `nil` map. -/
def getOptions (r : Request) : Request × Option (GoString → Option GoString) :=
  match decodeRequest r with
  | (r1, .ok doc) =>
    match getMap doc "Opts".toList with
    | some opts =>
      match getValue opts "Size".toList with
      | some size => (r1, some (sizeOption size))
      | none => (r1, some noOptions)
    | none => (r1, none)
  | (r1, .error _) => (r1, none)

/-- A value stored in a response message. -/
inductive MsgValue where
  | null
  | str (s : GoString)
  | strings (l : List GoString)
  | volume (v : Volume)
  | volumes (vs : List Volume)
  | capabilities (scope : GoString)
  deriving DecidableEq, Repr

/-- A response written to the `http.ResponseWriter`: the status code and the
members of the JSON object, in the order `json.Marshal` writes them. -/
structure Response where
  code : Nat
  body : List (GoString × MsgValue)
  deriving DecidableEq, Repr

/-- Source: `writeJson`; `w` holds the responses written so far. -/
def writeJson (jsonObject : List (GoString × MsgValue)) (code : Nat) (w : List Response) :
    List Response :=
  w ++ [{ code := code, body := jsonObject }]

/-- The message with the single member `Err`. -/
def errMessage (err : GoString) : List (GoString × MsgValue) :=
  [("Err".toList, .str err)]

/-- Source: `getName`. -/
def getName (w : List Response) (r : Request) : List Response × Request × Option GoString :=
  match decodeRequest r with
  | (r1, .error err) => (writeJson (errMessage err) 200 w, r1, none)
  | (r1, .ok m) =>
    match getValue m "Name".toList with
    | none => (writeJson (errMessage "Illegal request".toList) 200 w, r1, none)
    | some name => (w, r1, some name)

/-- Response to a lifecycle call that returns an error only. -/
def writeErrResult (w : List Response) (err : Option GoString) : List Response :=
  match err with
  | some e => writeJson (errMessage e) 200 w
  | none => writeJson (errMessage []) 200 w

/-- Source: `volumeDriverCreate`. -/
def volumeDriverCreate (d : VolumeDriver) (wld : World) (tr : Trace) (w : List Response)
    (r : Request) : Trace × Res (List Response) :=
  match getName w r with
  | (w1, _, none) => (tr, .val w1)
  | (w1, r1, some name) =>
    let options := (getOptions r1).2
    match DockerCreateVolume d wld tr name (options.getD noOptions) with
    | (tr1, .panic) => (tr1, .panic)
    | (tr1, .val err) => (tr1, .val (writeErrResult w1 err))

/-- Source: `volumeDriverRemove`. -/
def volumeDriverRemove (d : VolumeDriver) (wld : World) (tr : Trace) (w : List Response)
    (r : Request) : Trace × Res (List Response) :=
  match getName w r with
  | (w1, _, none) => (tr, .val w1)
  | (w1, _, some name) =>
    match DockerRemoveVolume d wld tr name with
    | (tr1, .panic) => (tr1, .panic)
    | (tr1, .val err) => (tr1, .val (writeErrResult w1 err))

/-- Response to a lifecycle call that returns a mountpoint and an error. -/
def writeMountpointResult (w : List Response) (res : Option GoString × Option GoString) :
    List Response :=
  match res with
  | (_, some e) => writeJson (errMessage e) 200 w
  | (some mountpoint, none) =>
    writeJson [("Err".toList, .str []), ("Mountpoint".toList, .str mountpoint)] 200 w
  | (none, none) => writeJson [("Err".toList, .str []), ("Mountpoint".toList, .null)] 200 w

/-- Source: `volumeDriverMount`. -/
def volumeDriverMount (d : VolumeDriver) (wld : World) (tr : Trace) (w : List Response)
    (r : Request) : Trace × Res (List Response) :=
  match getName w r with
  | (w1, _, none) => (tr, .val w1)
  | (w1, _, some name) =>
    match DockerMountVolume d wld tr name with
    | (tr1, .panic) => (tr1, .panic)
    | (tr1, .val res) => (tr1, .val (writeMountpointResult w1 res))

/-- Source: `volumeDriverPath`. -/
def volumeDriverPath (d : VolumeDriver) (wld : World) (tr : Trace) (w : List Response)
    (r : Request) : Trace × Res (List Response) :=
  match getName w r with
  | (w1, _, none) => (tr, .val w1)
  | (w1, _, some name) =>
    match DockerVolumePath d wld tr name with
    | (tr1, .panic) => (tr1, .panic)
    | (tr1, .val res) => (tr1, .val (writeMountpointResult w1 res))

/-- Source: `volumeDriverUnmount`. -/
def volumeDriverUnmount (d : VolumeDriver) (wld : World) (tr : Trace) (w : List Response)
    (r : Request) : Trace × Res (List Response) :=
  match getName w r with
  | (w1, _, none) => (tr, .val w1)
  | (w1, _, some name) =>
    match DockerUnmountVolume d wld tr name with
    | (tr1, err) => (tr1, .val (writeErrResult w1 err))

/-- Source: `volumeDriverGet`. -/
def volumeDriverGet (d : VolumeDriver) (wld : World) (tr : Trace) (w : List Response)
    (r : Request) : Trace × Res (List Response) :=
  match getName w r with
  | (w1, _, none) => (tr, .val w1)
  | (w1, _, some name) =>
    match dockerGetVolume d wld tr name with
    | (tr1, .panic) => (tr1, .panic)
    | (tr1, .val (_, some e)) => (tr1, .val (writeJson (errMessage e) 200 w1))
    | (tr1, .val (some volume, none)) =>
      (tr1, .val (writeJson [("Err".toList, .str []), ("Volume".toList, .volume volume)] 200 w1))
    | (tr1, .val (none, none)) =>
      (tr1, .val (writeJson [("Err".toList, .str []), ("Volume".toList, .null)] 200 w1))

/-- Source: `volumeDriverList`. -/
def volumeDriverList (d : VolumeDriver) (wld : World) (tr : Trace) (w : List Response) :
    Trace × Res (List Response) :=
  match dockerListVolume d wld tr with
  | (tr1, .panic) => (tr1, .panic)
  | (tr1, .val ((some vs, err), _)) =>
    (tr1, .val (writeJson [("Err".toList, .str err), ("Volumes".toList, .volumes vs)] 200 w))
  | (tr1, .val ((none, err), _)) => (tr1, .val (writeJson (errMessage err) 200 w))

/-- Source: `pluginActivate` (`DockerActivate` returns `["VolumeDriver"]`). -/
def pluginActivate (w : List Response) : List Response :=
  writeJson [("Implements".toList, .strings ["VolumeDriver".toList])] 200 w

/-- Source: `volumeCapabilities`. -/
def volumeCapabilities (w : List Response) : List Response :=
  writeJson [("Capabilities".toList, .capabilities "local".toList)] 200 w

/-- The request body `{"Name": name, "Opts": {"Size": size}}`. -/
def createRequest (name size : GoString) : Request :=
  singleDocumentRequest
    (.obj [("Name".toList, .str name), ("Opts".toList, .obj [("Size".toList, .str size)])])

/-- The response `{"Err": "Illegal request"}` with status 200. -/
def illegalRequestResponse : Response :=
  { code := 200, body := errMessage "Illegal request".toList }

/-- The example configuration with the mount root written with a trailing
slash, `/mnt/lvm/`. -/
def trailingSlashDriver : VolumeDriver :=
  { MountRoot := "/mnt/lvm/".toList, LvmDevice := "/dev/sdb".toList,
    VolumeGroupName := "vg".toList, DefaultLogicalVolumeSize := 256, Debug := false }

/-- The mount table after the effects of a trace: one line
`<device> on <dir> type ext4 (rw,relatime)` for every `mount <device> <dir>`
that was run, oldest first. -/
def mountTableOf : Trace → GoString
  | [] => []
  | .exec cmdName [device, dir] :: rest =>
    if cmdName = "mount".toList then
      device ++ " on ".toList ++ dir ++ " type ext4 (rw,relatime)\n".toList ++ mountTableOf rest
    else mountTableOf rest
  | _ :: rest => mountTableOf rest

/-- A world that keeps the mount table: `mount` without arguments prints the
table of the mounts run so far, `lvs` prints `lvsOut`, every program exits
with status 0 and creating a directory succeeds. -/
def mountTrackingWorld (lvsOut : GoString) : World :=
  { proc := fun tr cmdName args =>
      if cmdName = "mount".toList ∧ args = [] then
        { stdout := mountTableOf tr, stderr := [], outcome := .exited 0 }
      else if cmdName = "lvs".toList then
        { stdout := lvsOut, stderr := [], outcome := .exited 0 }
      else { stdout := [], stderr := [], outcome := .exited 0 },
    mkdir := fun _ _ _ => none }

/-- The effects of a `DockerMountVolume` of `vol1` that finds it not mounted,
in the example configuration. -/
def mountVol1Effects : Trace :=
  [mountListing, .mkdirAll "/mnt/lvm/vol1".toList 0o750,
    .exec "mount".toList ["/dev/vg/vol1".toList, "/mnt/lvm/vol1".toList]]

/-- The elements of a volume name read as a relative path and cleaned. -/
def cleanNameElems (name : GoString) : List GoString :=
  cleanElems false [] (splitOn '/' name)

/-- The name does not climb out of a directory it is joined to: read as a
relative path and cleaned it keeps at least one element and no `..` element
(a cleaned relative path has its `..` elements in front). -/
def StaysBelow (name : GoString) : Prop :=
  cleanNameElems name ≠ [] ∧ ['.', '.'] ∉ cleanNameElems name

instance (name : GoString) : Decidable (StaysBelow name) := by
  unfold StaysBelow
  exact inferInstance

/-- The example configuration with an empty mount root (the program refuses to
start with it). -/
def emptyRootDriver : VolumeDriver :=
  { MountRoot := [], LvmDevice := "/dev/sdb".toList,
    VolumeGroupName := "vg".toList, DefaultLogicalVolumeSize := 256, Debug := false }

/-! # Theorems -/

/-! ## Lemmas on number conversion -/

theorem foldl_digits_ge (d : GoString) (n : Nat) :
    n ≤ d.foldl (fun n c => n * 10 + digitVal c) n := by
  induction d generalizing n with
  | nil => simp
  | cons c cs ih =>
    simp only [List.foldl_cons]
    have := ih (n * 10 + digitVal c)
    omega

theorem parseUintLoop_digits (d : GoString) (hd : ∀ c ∈ d, c.isDigit = true) (n : Nat)
    (h : d.foldl (fun n c => n * 10 + digitVal c) n ≤ maxUint64) :
    parseUintLoop n d = .ok (d.foldl (fun n c => n * 10 + digitVal c) n) := by
  induction d generalizing n with
  | nil => simp [parseUintLoop]
  | cons c cs ih =>
    have hc : c.isDigit = true := hd c (by simp)
    have hcs : ∀ x ∈ cs, x.isDigit = true := fun x hx => hd x (by simp [hx])
    simp only [List.foldl_cons] at h ⊢
    have hge := foldl_digits_ge cs (n * 10 + digitVal c)
    have hle : ¬ (n * 10 + digitVal c > maxUint64) := by omega
    simp only [parseUintLoop, hc, if_true, hle, if_false]
    exact ih hcs _ h

theorem isDigit_ne_sign (c : Char) (hc : c.isDigit = true) : c ≠ '+' ∧ c ≠ '-' := by
  constructor <;> (rintro rfl; revert hc; decide)

theorem atoi_digits (d : GoString) (hne : d ≠ []) (hd : ∀ c ∈ d, c.isDigit = true)
    (h : (decimalValue d : Int) ≤ maxInt) : atoi d = ((decimalValue d : Int), none) := by
  cases d with
  | nil => exact absurd rfl hne
  | cons c cs =>
    have hc := isDigit_ne_sign c (hd c (by simp))
    have hmax : decimalValue (c :: cs) ≤ maxUint64 := by
      have : (decimalValue (c :: cs) : Int) ≤ 2 ^ 63 - 1 := h
      simp only [maxUint64]; omega
    have hloop := parseUintLoop_digits (c :: cs) hd 0 hmax
    have hlt : ¬ (decimalValue (c :: cs) ≥ 2 ^ 63) := by
      have : (decimalValue (c :: cs) : Int) ≤ 2 ^ 63 - 1 := h
      omega
    simp only [atoi, hc.1, hc.2, if_false, parseIntSigned, parseUint]
    rw [hloop]
    simp [decimalValue] at hlt ⊢
    omega

theorem wrapInt_of_fits (x : Int) (h1 : minInt ≤ x) (h2 : x ≤ maxInt) : wrapInt x = x := by
  simp only [wrapInt, minInt, maxInt] at *
  omega

/-! ## Lemmas on the size pattern -/

theorem takeWhile_digits_append (d sfx : GoString) (hd : ∀ c ∈ d, c.isDigit = true)
    (hs : sfx = [] ∨ sfx = ['M'] ∨ sfx = ['G']) :
    (d ++ sfx).takeWhile Char.isDigit = d ∧ (d ++ sfx).dropWhile Char.isDigit = sfx := by
  rw [List.takeWhile_append_of_pos hd, List.dropWhile_append_of_pos hd]
  rcases hs with h | h | h <;> subst h <;> simp

theorem matchSizeAt_pattern (d sfx : GoString) (hne : d ≠ []) (hd : ∀ c ∈ d, c.isDigit = true)
    (hs : sfx = [] ∨ sfx = ['M'] ∨ sfx = ['G']) :
    matchSizeAt ('-' :: 'o' :: 'S' :: (d ++ sfx)) = some (d, sfx) := by
  obtain ⟨h1, h2⟩ := takeWhile_digits_append d sfx hd hs
  simp only [matchSizeAt, h1, h2, and_self, if_true, hne, if_false, hs]

theorem matchSizeAt_some (s m1 m2 : GoString) (h : matchSizeAt s = some (m1, m2)) :
    s = '-' :: 'o' :: 'S' :: (m1 ++ m2) ∧ m1 ≠ [] ∧ (∀ c ∈ m1, c.isDigit = true) ∧
      (m2 = [] ∨ m2 = ['M'] ∨ m2 = ['G']) := by
  match s, h with
  | c0 :: c1 :: c2 :: rest, h =>
    simp only [matchSizeAt] at h
    split_ifs at h with hc hne htail
    simp only [Option.some.injEq, Prod.mk.injEq] at h
    obtain ⟨h1, h2⟩ := h
    obtain ⟨rfl, rfl, rfl⟩ := hc
    refine ⟨?_, ?_, ?_, ?_⟩
    · rw [← h1, ← h2, List.takeWhile_append_dropWhile]
    · rw [← h1]; exact hne
    · intro c hc
      rw [← h1] at hc
      exact (List.mem_takeWhile_imp hc)
    · rw [← h2]; exact htail

theorem matchSizeAt_dash_later (c : Char) (p q : GoString) :
    matchSizeAt (c :: (p ++ '-' :: q)) = none := by
  cases hm : matchSizeAt (c :: (p ++ '-' :: q)) with
  | none => rfl
  | some m =>
    obtain ⟨m1, m2⟩ := m
    obtain ⟨hs, -, hd, hsfx⟩ := matchSizeAt_some _ _ _ hm
    exfalso
    have hmem : '-' ∈ p ++ '-' :: q := by simp
    have htail : p ++ '-' :: q = 'o' :: 'S' :: (m1 ++ m2) := (List.cons.inj hs).2
    rw [htail] at hmem
    simp only [List.mem_cons, List.mem_append] at hmem
    rcases hmem with h | h | h | h
    · exact absurd h (by decide)
    · exact absurd h (by decide)
    · exact absurd (hd _ h) (by decide)
    · rcases hsfx with e | e | e <;> subst e <;> revert h <;> simp

theorem findSizeSubmatch_pattern_aux (p d sfx : GoString) (hne : d ≠ [])
    (hd : ∀ c ∈ d, c.isDigit = true) (hs : sfx = [] ∨ sfx = ['M'] ∨ sfx = ['G']) :
    findSizeSubmatch (p ++ '-' :: 'o' :: 'S' :: (d ++ sfx)) = some (d, sfx) := by
  induction p with
  | nil =>
    simp only [List.nil_append, findSizeSubmatch, matchSizeAt_pattern d sfx hne hd hs]
  | cons c p ih =>
    show findSizeSubmatch (c :: (p ++ '-' :: 'o' :: 'S' :: (d ++ sfx))) = some (d, sfx)
    rw [findSizeSubmatch, matchSizeAt_dash_later]
    exact ih

theorem findSizeSubmatch_pattern (p d sfx : GoString) (hne : d ≠ [])
    (hd : ∀ c ∈ d, c.isDigit = true) (hs : sfx = [] ∨ sfx = ['M'] ∨ sfx = ['G']) :
    findSizeSubmatch (p ++ "-oS".toList ++ d ++ sfx) = some (d, sfx) := by
  have hlit : p ++ "-oS".toList ++ d ++ sfx = p ++ '-' :: 'o' :: 'S' :: (d ++ sfx) := by
    simp
  rw [hlit]
  exact findSizeSubmatch_pattern_aux p d sfx hne hd hs

theorem findSizeSubmatch_some (s m1 m2 : GoString) (h : findSizeSubmatch s = some (m1, m2)) :
    EndsInSizePattern s ∧ m1 ≠ [] ∧ (∀ c ∈ m1, c.isDigit = true) := by
  induction s with
  | nil => simp [findSizeSubmatch] at h
  | cons c cs ih =>
    simp only [findSizeSubmatch] at h
    cases hm : matchSizeAt (c :: cs) with
    | some m =>
      rw [hm] at h
      simp only [Option.some.injEq] at h
      subst h
      obtain ⟨hs, hne, hd, hsfx⟩ := matchSizeAt_some _ _ _ hm
      exact ⟨⟨[], m1, m2, by simpa using hs, hne, hd, hsfx⟩, hne, hd⟩
    | none =>
      rw [hm] at h
      obtain ⟨⟨p, d, sfx, hp, hrest⟩, h2⟩ := ih h
      exact ⟨⟨c :: p, d, sfx, by simp [hp], hrest⟩, h2⟩

theorem parseUintLoop_digits_range (d : GoString) (hd : ∀ c ∈ d, c.isDigit = true) (n : Nat)
    (hn : n ≤ maxUint64)
    (h : maxUint64 < d.foldl (fun n c => n * 10 + digitVal c) n) :
    parseUintLoop n d = .error .rangeErr := by
  induction d generalizing n with
  | nil =>
    simp only [List.foldl_nil] at h
    omega
  | cons c cs ih =>
    have hc : c.isDigit = true := hd c (by simp)
    have hcs : ∀ x ∈ cs, x.isDigit = true := fun x hx => hd x (by simp [hx])
    simp only [List.foldl_cons] at h
    by_cases hover : n * 10 + digitVal c > maxUint64
    · simp only [parseUintLoop, hc, if_true, hover]
    · simp only [parseUintLoop, hc, if_true, hover, if_false]
      exact ih hcs _ (by omega) h

/-- A digit string above the largest `int` is clamped by `strconv.Atoi`. -/
theorem atoi_digits_clamp (d : GoString) (hne : d ≠ []) (hd : ∀ c ∈ d, c.isDigit = true)
    (h : maxInt < (decimalValue d : Int)) : (atoi d).1 = maxInt := by
  cases d with
  | nil => exact absurd rfl hne
  | cons c cs =>
    have hc := isDigit_ne_sign c (hd c (by simp))
    have hbig : 2 ^ 63 ≤ decimalValue (c :: cs) := by
      have : (2 : Int) ^ 63 - 1 < (decimalValue (c :: cs) : Int) := h
      omega
    simp only [atoi, hc.1, hc.2, if_false, parseIntSigned, parseUint]
    by_cases hmax : decimalValue (c :: cs) ≤ maxUint64
    · rw [parseUintLoop_digits (c :: cs) hd 0 hmax]
      have hge : List.foldl (fun n c => n * 10 + digitVal c) 0 (c :: cs) ≥ 2 ^ 63 := hbig
      simp only [Bool.not_false, Bool.true_and, decide_eq_true_eq, hge, if_true]
    · rw [parseUintLoop_digits_range (c :: cs) hd 0 (by simp [maxUint64]) (by
        simp only [decimalValue] at hmax; omega)]
      simp

/-- Value `strconv.Atoi` gives for a string of digits: the number, capped at
the largest `int`. -/
theorem atoi_digits_value (d : GoString) (hne : d ≠ []) (hd : ∀ c ∈ d, c.isDigit = true) :
    (atoi d).1 = min (decimalValue d : Int) maxInt := by
  by_cases h : (decimalValue d : Int) ≤ maxInt
  · rw [atoi_digits d hne hd h, min_eq_left h]
  · have h2 : maxInt < (decimalValue d : Int) := by omega
    rw [atoi_digits_clamp d hne hd h2, min_eq_right (by omega)]

/-- Size of every name that ends in the pattern: the digits' value, capped at
the largest `int`, times the factor, wrapped to 64 bits. -/
theorem getSizeFromName_pattern_value (p d sfx : GoString) (hne : d ≠ [])
    (hd : ∀ c ∈ d, c.isDigit = true) (hs : sfx = [] ∨ sfx = ['M'] ∨ sfx = ['G']) :
    getSizeFromName (p ++ "-oS".toList ++ d ++ sfx)
      = wrapInt (min (decimalValue d : Int) maxInt * (if sfx = ['G'] then 1024 else 1)) := by
  have hfind := findSizeSubmatch_pattern p d sfx hne hd hs
  simp only [getSizeFromName, hfind, atoi_digits_value d hne hd]

/-- Size of a name that ends in the pattern, when the product fits `int`. -/
theorem getSizeFromName_pattern (p d sfx : GoString) (hne : d ≠ [])
    (hd : ∀ c ∈ d, c.isDigit = true) (hs : sfx = [] ∨ sfx = ['M'] ∨ sfx = ['G'])
    (hfit : (decimalValue d : Int) * (if sfx = ['G'] then 1024 else 1) ≤ maxInt) :
    getSizeFromName (p ++ "-oS".toList ++ d ++ sfx)
      = (decimalValue d : Int) * (if sfx = ['G'] then 1024 else 1) := by
  have hnn : (0 : Int) ≤ (decimalValue d : Int) := Int.ofNat_nonneg _
  have hfit1 : (decimalValue d : Int) ≤ maxInt := by
    split_ifs at hfit <;> omega
  have hfind := findSizeSubmatch_pattern p d sfx hne hd hs
  have hat := atoi_digits d hne hd hfit1
  simp only [getSizeFromName, hfind, hat]
  refine wrapInt_of_fits _ ?_ hfit
  simp only [minInt]
  split_ifs <;> omega

/-- C2 fails as stated.  The name `x-oS9223372036854775808M` ends in `-oS`, a
digit string and `M`; the value of the digits is 9223372036854775808, and
`getSizeFromName` returns 9223372036854775807: `strconv.Atoi` answers with the
largest `int` and its range error is discarded. -/
theorem getSizeFromName_clamps_large_digits :
    (∀ c ∈ "9223372036854775808".toList, c.isDigit = true) ∧
    decimalValue "9223372036854775808".toList = 9223372036854775808 ∧
    getSizeFromName "x-oS9223372036854775808M".toList = 9223372036854775807 := by
  decide

/-- C2, amended.  `getSizeFromName` returns the size embedded in the name, in
megabytes: a name ending in `-oS<d>M` gives the value of `d` provided that
value fits a 64-bit signed integer, a name ending in `-oS<d>G` gives the value
of `d` times 1024 provided that product fits a 64-bit signed integer; a name
that does not end in the pattern gives 0.  For every name that ends in the
pattern the result is the value of `d`, capped at the largest `int`, times the
factor, wrapped to 64 bits.  The two examples of the specification are
evaluated. -/
theorem getSizeFromName_embedded_size :
    (∀ p d : GoString, d ≠ [] → (∀ c ∈ d, c.isDigit = true) →
      ((decimalValue d : Int) ≤ maxInt →
        getSizeFromName (p ++ "-oS".toList ++ d ++ "M".toList) = (decimalValue d : Int)) ∧
      ((decimalValue d : Int) * 1024 ≤ maxInt →
        getSizeFromName (p ++ "-oS".toList ++ d ++ "G".toList)
          = (decimalValue d : Int) * 1024)) ∧
    (∀ name : GoString, ¬ EndsInSizePattern name → getSizeFromName name = 0) ∧
    getSizeFromName "data-oS100M".toList = 100 ∧
    getSizeFromName "data-oS2G".toList = 2048 ∧
    (∀ p d sfx : GoString, d ≠ [] → (∀ c ∈ d, c.isDigit = true) →
      (sfx = [] ∨ sfx = ['M'] ∨ sfx = ['G']) →
      getSizeFromName (p ++ "-oS".toList ++ d ++ sfx)
        = wrapInt (min (decimalValue d : Int) maxInt
            * (if sfx = ['G'] then 1024 else 1))) := by
  refine ⟨?_, ?_, by decide, by decide, ?_⟩
  · intro p d hne hd
    constructor
    · intro hfit
      have h := getSizeFromName_pattern p d ['M'] hne hd (by simp) (by simpa using hfit)
      simpa using h
    · intro hfit
      have h := getSizeFromName_pattern p d ['G'] hne hd (by simp) (by simpa using hfit)
      simpa using h
  · intro name hn
    cases hf : findSizeSubmatch name with
    | none => simp only [getSizeFromName, hf]
    | some m =>
      obtain ⟨m1, m2⟩ := m
      exact absurd (findSizeSubmatch_some _ _ _ hf).1 hn
  · intro p d sfx hne hd hs
    exact getSizeFromName_pattern_value p d sfx hne hd hs

/-- Witness of C2: the theorem applied to the name `data-oS100M`. -/
theorem getSizeFromName_embedded_size_witness :
    getSizeFromName ("data".toList ++ "-oS".toList ++ "100".toList ++ "M".toList)
      = (decimalValue "100".toList : Int) :=
  (getSizeFromName_embedded_size.1 "data".toList "100".toList (by decide)
    (by decide)).1 (by decide)

/-! ## Lemmas on the oracle -/

theorem runCommand_trace (w : World) (tr : Trace) (cmdName : GoString) (args : List GoString) :
    (runCommand w tr cmdName args).1 = tr ++ [Action.exec cmdName args] := by
  simp only [runCommand]
  split
  · split_ifs <;> rfl
  · rfl

theorem getMountedVolumes_trace (d : VolumeDriver) (w : World) (tr : Trace) :
    (getMountedVolumes d w tr).1 = tr ++ [mountListing] := by
  have h := runCommand_trace w tr "mount".toList []
  simp only [getMountedVolumes]
  split_ifs
  · split <;> exact h
  · exact h

theorem isMounted_trace (d : VolumeDriver) (w : World) (tr : Trace) (volume : GoString) :
    (isMounted d w tr volume).1 = tr ++ [mountListing] := by
  have h := getMountedVolumes_trace d w tr
  unfold isMounted
  split <;> rename_i heq <;> rw [heq] at h <;> exact h

theorem isMounted_true (d : VolumeDriver) (w : World) (tr tr1 : Trace) (volume : GoString)
    (e : Option GoString) (h : isMounted d w tr volume = (tr1, .val (true, e))) :
    tr1 = tr ++ [mountListing] ∧ e = none := by
  have ht := isMounted_trace d w tr volume
  rw [h] at ht
  refine ⟨ht, ?_⟩
  unfold isMounted at h
  split at h <;> simp at h
  exact h.2.2.symm

theorem listVolumes_trace_ok (d : VolumeDriver) (w : World) (tr tr1 : Trace)
    (vols : List Volume) (h : listVolumes d w tr = (tr1, .val (.ok vols))) :
    tr1 = tr ++ [mountListing, lvsListing d] := by
  have hm := getMountedVolumes_trace d w tr
  unfold listVolumes at h
  split at h
  · simp at h
  · simp at h
  · rename_i t mounted heq
    rw [heq] at hm
    simp only at hm
    have hr := runCommand_trace w t "lvs".toList
      ["--noheadings".toList, "-o".toList, "lv_name".toList, "-v".toList, d.VolumeGroupName]
    simp only at h
    split_ifs at h
    · simp at h
    · simp only [Prod.mk.injEq] at h
      rw [← h.1, hr, hm]
      simp [lvsListing]

theorem existsVolume_no_error (d : VolumeDriver) (w : World) (tr tr1 : Trace)
    (name : GoString) (b : Bool)
    (h : existsVolume d w tr name = (tr1, .val (b, none))) :
    tr1 = tr ++ [mountListing, lvsListing d] := by
  unfold existsVolume at h
  split at h
  · simp at h
  · rename_i t vols heq
    simp only [Prod.mk.injEq] at h
    rw [← h.1]
    exact listVolumes_trace_ok d w tr t vols heq
  · simp at h

theorem existsVolume_true (d : VolumeDriver) (w : World) (tr tr1 : Trace)
    (name : GoString) (e : Option GoString)
    (h : existsVolume d w tr name = (tr1, .val (true, e))) :
    tr1 = tr ++ [mountListing, lvsListing d] ∧ e = none := by
  have he : e = none := by
    unfold existsVolume at h
    split at h <;> simp at h
    exact h.2.2.symm
  subst he
  exact ⟨existsVolume_no_error d w tr tr1 name true h, rfl⟩

/-! ## Lemmas on the mutating commands -/

theorem createVolume_trace (d : VolumeDriver) (w : World) (tr : Trace) (name : GoString)
    (size : Int) : (createVolume d w tr name size).1 = tr ++ [lvcreateAction d name size] := by
  have h := runCommand_trace w tr "lvcreate".toList
    ["-L".toList, itoa size ++ "M".toList, "-n".toList, name, d.VolumeGroupName]
  simp only [createVolume]
  split_ifs <;> exact h

theorem makefs_trace (w : World) (tr : Trace) (device : GoString) :
    (makefs w tr device).1 = tr ++ [Action.exec "mkfs.ext4".toList [device]] := by
  have h := runCommand_trace w tr "mkfs.ext4".toList [device]
  simp only [makefs]
  split_ifs <;> exact h

/-- When the name is absent from a successful listing, `DockerCreateVolume`
runs `lvcreate` with the size it resolved, right after the two listings, and
after that at most `mkfs.ext4`. -/
theorem create_absent_trace (d : VolumeDriver) (w : World) (tr tr1 : Trace)
    (name : GoString) (options : GoString → Option GoString)
    (hex : existsVolume d w tr name = (tr1, .val (false, none))) :
    ∃ rest, (DockerCreateVolume d w tr name options).1
        = tr ++ [mountListing, lvsListing d,
            lvcreateAction d name
              (match options "size".toList with
                | some val => (atoi val).1
                | none =>
                  if getSizeFromName name ≠ 0 then getSizeFromName name
                  else d.DefaultLogicalVolumeSize)] ++ rest
      ∧ (rest = [] ∨ rest = [mkfsAction d name]) := by
  have ht := existsVolume_no_error d w tr tr1 name false hex
  simp only [DockerCreateVolume, hex]
  generalize (match options "size".toList with
    | some val => (atoi val).1
    | none =>
      if getSizeFromName name ≠ 0 then getSizeFromName name
      else d.DefaultLogicalVolumeSize) = size
  have hc := createVolume_trace d w tr1 name size
  cases hcv : createVolume d w tr1 name size with
  | mk tr2 err =>
    rw [hcv] at hc
    simp only at hc
    cases err with
    | some e =>
      refine ⟨[], ?_, Or.inl rfl⟩
      simp [hc, ht]
    | none =>
      refine ⟨[mkfsAction d name], ?_, Or.inr rfl⟩
      subst ht hc
      simp [makefs_trace, mkfsAction]

/-! ## Size resolution of `DockerCreateVolume` -/

/-- C1 fails as stated.  The name `data` is absent and the option `size` is the
decimal integer string `9223372036854775808`; `strconv.Atoi` answers with the
largest `int` (its range error is discarded), and `lvcreate` is run with
`9223372036854775807M`, not with `9223372036854775808M`. -/
theorem create_explicit_size_out_of_range :
    (∀ c ∈ "9223372036854775808".toList, c.isDigit = true) ∧
    existsVolume exampleDriver (listingWorld [] [] (.exited 0)) [] "data".toList
      = ([mountListing, lvsListing exampleDriver], .val (false, none)) ∧
    DockerCreateVolume exampleDriver (listingWorld [] [] (.exited 0)) [] "data".toList
        (sizeOption "9223372036854775808".toList)
      = ([mountListing, lvsListing exampleDriver,
          Action.exec "lvcreate".toList ["-L".toList, "9223372036854775807M".toList,
            "-n".toList, "data".toList, "vg".toList],
          mkfsAction exampleDriver "data".toList], .val none) := by
  decide

/-- C1, amended.  When the options hold under `size` a string of decimal digits
whose value `n` is at most the largest 64-bit signed integer, and the name is
absent from a successful listing, `DockerCreateVolume` runs, right after the
two listings, `lvcreate -L <n>M -n <name> <group>`, whatever the name (also one
with a size suffix) and whatever the default size; at most `mkfs.ext4` follows. -/
theorem create_explicit_size (d : VolumeDriver) (w : World) (tr tr1 : Trace)
    (name sz : GoString) (options : GoString → Option GoString)
    (hopt : options "size".toList = some sz) (hne : sz ≠ [])
    (hdig : ∀ c ∈ sz, c.isDigit = true) (hfit : (decimalValue sz : Int) ≤ maxInt)
    (hex : existsVolume d w tr name = (tr1, .val (false, none))) :
    ∃ rest, (DockerCreateVolume d w tr name options).1
        = tr ++ [mountListing, lvsListing d,
            Action.exec "lvcreate".toList ["-L".toList,
              itoa (decimalValue sz : Int) ++ "M".toList, "-n".toList, name,
              d.VolumeGroupName]] ++ rest
      ∧ (rest = [] ∨ rest = [mkfsAction d name]) := by
  obtain ⟨rest, h1, h2⟩ := create_absent_trace d w tr tr1 name options hex
  refine ⟨rest, ?_, h2⟩
  rw [h1, hopt]
  simp only [atoi_digits sz hne hdig hfit, lvcreateAction]

/-- Witness of C1: the name `data-oS100M` with the option `size` = `50`. -/
theorem create_explicit_size_witness :
    ∃ rest, (DockerCreateVolume exampleDriver (listingWorld [] [] (.exited 0)) []
          "data-oS100M".toList (sizeOption "50".toList)).1
        = [] ++ [mountListing, lvsListing exampleDriver,
            Action.exec "lvcreate".toList ["-L".toList,
              itoa (decimalValue "50".toList : Int) ++ "M".toList, "-n".toList,
              "data-oS100M".toList, exampleDriver.VolumeGroupName]] ++ rest
      ∧ (rest = [] ∨ rest = [mkfsAction exampleDriver "data-oS100M".toList]) :=
  create_explicit_size exampleDriver (listingWorld [] [] (.exited 0)) []
    [mountListing, lvsListing exampleDriver] "data-oS100M".toList "50".toList
    (sizeOption "50".toList) (by decide) (by decide) (by decide) (by decide) (by decide)

/-- C3 fails as stated.  Without a `size` option, the name `data-oS0M` ends in
the pattern, yet the volume is created with the default size of 256 MB: an
embedded size of 0 is taken for "no size in the name".  And for the name
`data-oS9007199254740992G` the product with 1024 leaves the `int` range, and
`lvcreate` is run with the wrapped, negative size. -/
theorem create_zero_embedded_size_uses_default :
    EndsInSizePattern "data-oS0M".toList ∧
    DockerCreateVolume exampleDriver (listingWorld [] [] (.exited 0)) [] "data-oS0M".toList
        noOptions
      = ([mountListing, lvsListing exampleDriver,
          Action.exec "lvcreate".toList ["-L".toList, "256M".toList,
            "-n".toList, "data-oS0M".toList, "vg".toList],
          mkfsAction exampleDriver "data-oS0M".toList], .val none) ∧
    DockerCreateVolume exampleDriver (listingWorld [] [] (.exited 0)) []
        "data-oS9007199254740992G".toList noOptions
      = ([mountListing, lvsListing exampleDriver,
          Action.exec "lvcreate".toList ["-L".toList, "-9223372036854775808M".toList,
            "-n".toList, "data-oS9007199254740992G".toList, "vg".toList],
          mkfsAction exampleDriver "data-oS9007199254740992G".toList], .val none) := by
  refine ⟨⟨"data".toList, "0".toList, "M".toList, by decide, by decide, by decide, by decide⟩,
    by decide, by decide⟩

/-- C3, amended.  Without a `size` option and for a name absent from a
successful listing, `lvcreate` is run with `getSizeFromName name` when that is
not 0 and with `DefaultLogicalVolumeSize` when it is 0.  So when the name ends
in `-oS<digits>` optionally followed by `M` or `G` and the embedded size (the
digits, times 1024 for `G`) is not zero and fits a 64-bit signed integer,
`lvcreate` is run with that size; when the name does not end in the pattern,
or `getSizeFromName` gives 0 for it, `lvcreate` is run with the default; and
for every name that ends in the pattern `getSizeFromName` is the value of the
digits, capped at the largest `int`, times the factor, wrapped to 64 bits. -/
theorem create_size_from_name_or_default (d : VolumeDriver) (w : World) (tr tr1 : Trace)
    (name : GoString) (options : GoString → Option GoString)
    (hopt : options "size".toList = none)
    (hex : existsVolume d w tr name = (tr1, .val (false, none))) :
    (∀ p dg sfx : GoString, name = p ++ "-oS".toList ++ dg ++ sfx → dg ≠ [] →
      (∀ c ∈ dg, c.isDigit = true) → (sfx = [] ∨ sfx = ['M'] ∨ sfx = ['G']) →
      (decimalValue dg : Int) * (if sfx = ['G'] then 1024 else 1) ≠ 0 →
      (decimalValue dg : Int) * (if sfx = ['G'] then 1024 else 1) ≤ maxInt →
      ∃ rest, (DockerCreateVolume d w tr name options).1
          = tr ++ [mountListing, lvsListing d,
              lvcreateAction d name
                ((decimalValue dg : Int) * (if sfx = ['G'] then 1024 else 1))] ++ rest
        ∧ (rest = [] ∨ rest = [mkfsAction d name])) ∧
    ((¬ EndsInSizePattern name ∨ getSizeFromName name = 0) →
      ∃ rest, (DockerCreateVolume d w tr name options).1
          = tr ++ [mountListing, lvsListing d,
              lvcreateAction d name d.DefaultLogicalVolumeSize] ++ rest
        ∧ (rest = [] ∨ rest = [mkfsAction d name])) ∧
    (getSizeFromName name ≠ 0 →
      ∃ rest, (DockerCreateVolume d w tr name options).1
          = tr ++ [mountListing, lvsListing d,
              lvcreateAction d name (getSizeFromName name)] ++ rest
        ∧ (rest = [] ∨ rest = [mkfsAction d name])) ∧
    (∀ p dg sfx : GoString, name = p ++ "-oS".toList ++ dg ++ sfx → dg ≠ [] →
      (∀ c ∈ dg, c.isDigit = true) → (sfx = [] ∨ sfx = ['M'] ∨ sfx = ['G']) →
      getSizeFromName name
        = wrapInt (min (decimalValue dg : Int) maxInt
            * (if sfx = ['G'] then 1024 else 1))) := by
  obtain ⟨rest, h1, h2⟩ := create_absent_trace d w tr tr1 name options hex
  rw [hopt] at h1
  simp only at h1
  refine ⟨?_, ?_, ?_, ?_⟩
  · intro p dg sfx hname hne hdig hsfx hnz hfit
    have hsz := getSizeFromName_pattern p dg sfx hne hdig hsfx hfit
    rw [← hname] at hsz
    refine ⟨rest, ?_, h2⟩
    rw [h1, hsz, if_pos hnz]
  · intro hcase
    have hz : getSizeFromName name = 0 := by
      rcases hcase with hn | hz
      · cases hf : findSizeSubmatch name with
        | none => simp only [getSizeFromName, hf]
        | some m =>
          obtain ⟨m1, m2⟩ := m
          exact absurd (findSizeSubmatch_some _ _ _ hf).1 hn
      · exact hz
    refine ⟨rest, ?_, h2⟩
    rw [h1, hz, if_neg (by simp)]
  · intro hnz
    refine ⟨rest, ?_, h2⟩
    rw [h1, if_pos hnz]
  · intro p dg sfx hname hne hdig hsfx
    rw [hname]
    exact getSizeFromName_pattern_value p dg sfx hne hdig hsfx

/-- Witness of C3: the names `data-oS2G` (2048 MB), `data` (the default) and
`data-oS9007199254740992G` (the wrapped product, which is not 0). -/
theorem create_size_from_name_or_default_witness :
    (∃ rest, (DockerCreateVolume exampleDriver (listingWorld [] [] (.exited 0)) []
          "data-oS2G".toList noOptions).1
        = [] ++ [mountListing, lvsListing exampleDriver,
            lvcreateAction exampleDriver "data-oS2G".toList
              ((decimalValue "2".toList : Int) * (if "G".toList = ['G'] then 1024 else 1))]
          ++ rest
      ∧ (rest = [] ∨ rest = [mkfsAction exampleDriver "data-oS2G".toList])) ∧
    (∃ rest, (DockerCreateVolume exampleDriver (listingWorld [] [] (.exited 0)) []
          "data".toList noOptions).1
        = [] ++ [mountListing, lvsListing exampleDriver,
            lvcreateAction exampleDriver "data".toList
              exampleDriver.DefaultLogicalVolumeSize] ++ rest
      ∧ (rest = [] ∨ rest = [mkfsAction exampleDriver "data".toList])) ∧
    (∃ rest, (DockerCreateVolume exampleDriver (listingWorld [] [] (.exited 0)) []
          "data-oS9007199254740992G".toList noOptions).1
        = [] ++ [mountListing, lvsListing exampleDriver,
            lvcreateAction exampleDriver "data-oS9007199254740992G".toList
              (getSizeFromName "data-oS9007199254740992G".toList)] ++ rest
      ∧ (rest = [] ∨ rest = [mkfsAction exampleDriver "data-oS9007199254740992G".toList])) :=
  ⟨(create_size_from_name_or_default exampleDriver (listingWorld [] [] (.exited 0)) []
      [mountListing, lvsListing exampleDriver] "data-oS2G".toList noOptions rfl
      (by decide)).1 "data".toList "2".toList "G".toList (by decide) (by decide) (by decide)
      (by decide) (by decide) (by decide),
   (create_size_from_name_or_default exampleDriver (listingWorld [] [] (.exited 0)) []
      [mountListing, lvsListing exampleDriver] "data".toList noOptions rfl
      (by decide)).2.1 (Or.inr (by decide)),
   (create_size_from_name_or_default exampleDriver (listingWorld [] [] (.exited 0)) []
      [mountListing, lvsListing exampleDriver] "data-oS9007199254740992G".toList noOptions
      rfl (by decide)).2.2.1 (by decide)⟩

/-! ## Create on an existing name -/

/-- C4.  For a name that `existsVolume` reports as existing, `DockerCreateVolume`
fails with `Volume <name> already exists`, for every options map, and the only
programs it runs are the two listings `mount` and `lvs`: neither `lvcreate` nor
`mkfs.ext4` is run. -/
theorem create_existing_fails (d : VolumeDriver) (w : World) (tr tr1 : Trace)
    (name : GoString) (e : Option GoString) (options : GoString → Option GoString)
    (hex : existsVolume d w tr name = (tr1, .val (true, e))) :
    DockerCreateVolume d w tr name options
      = (tr ++ [mountListing, lvsListing d],
          .val (some ("Volume ".toList ++ name ++ " already exists".toList))) ∧
    commandsRun ((DockerCreateVolume d w tr name options).1.drop tr.length)
      = ["mount".toList, "lvs".toList] := by
  obtain ⟨ht, he⟩ := existsVolume_true d w tr tr1 name e hex
  subst he ht
  have h : DockerCreateVolume d w tr name options
      = (tr ++ [mountListing, lvsListing d],
          .val (some ("Volume ".toList ++ name ++ " already exists".toList))) := by
    simp [DockerCreateVolume, hex]
  refine ⟨h, ?_⟩
  rw [h]
  simp [commandsRun, mountListing, lvsListing]

/-- Witness of C4: the listed volume `vol1`, with a `size` option. -/
theorem create_existing_fails_witness :
    DockerCreateVolume exampleDriver (listingWorld [] "  vol1\n".toList (.exited 0)) []
        "vol1".toList (sizeOption "50".toList)
      = ([] ++ [mountListing, lvsListing exampleDriver],
          .val (some ("Volume ".toList ++ "vol1".toList ++ " already exists".toList))) ∧
    commandsRun ((DockerCreateVolume exampleDriver
        (listingWorld [] "  vol1\n".toList (.exited 0)) [] "vol1".toList
        (sizeOption "50".toList)).1.drop ([] : Trace).length)
      = ["mount".toList, "lvs".toList] :=
  create_existing_fails exampleDriver (listingWorld [] "  vol1\n".toList (.exited 0)) []
    [mountListing, lvsListing exampleDriver] "vol1".toList none (sizeOption "50".toList)
    (by decide)

/-! ## Remove, mount and unmount -/

theorem runCommand_status (w : World) (tr : Trace) (cmdName : GoString) (args : List GoString) :
    (runCommand w tr cmdName args).2.status = 0
      ↔ (w.proc tr cmdName args).outcome = .exited 0 := by
  simp only [runCommand]
  split
  · rename_i code hc
    rw [hc]
    split_ifs with h
    · simp [h]
    · simp [h]
  · rename_i hc
    rw [hc]
    simp

theorem existsVolume_trace (d : VolumeDriver) (w : World) (tr : Trace) (name : GoString) :
    (existsVolume d w tr name).1 = tr ++ [mountListing]
      ∨ (existsVolume d w tr name).1 = tr ++ [mountListing, lvsListing d] := by
  have hm := getMountedVolumes_trace d w tr
  have hr : ∀ t, (runCommand w t "lvs".toList ["--noheadings".toList, "-o".toList,
      "lv_name".toList, "-v".toList, d.VolumeGroupName]).1 = t ++ [lvsListing d] :=
    fun t => runCommand_trace w t _ _
  simp only [existsVolume, listVolumes]
  cases hg : getMountedVolumes d w tr with
  | mk t r =>
    rw [hg] at hm
    simp only at hm
    subst hm
    cases r with
    | panic => left; rfl
    | val x =>
      cases x with
      | error err => left; rfl
      | ok mounted =>
        right
        simp only
        split_ifs <;> (simp only []; rw [hr]; simp)

theorem existsVolume_val_true (d : VolumeDriver) (w : World) (tr : Trace) (name : GoString)
    (e : Option GoString) (h : (existsVolume d w tr name).2 = .val (true, e)) :
    existsVolume d w tr name = (tr ++ [mountListing, lvsListing d], .val (true, none)) := by
  have h1 : existsVolume d w tr name = ((existsVolume d w tr name).1, .val (true, e)) := by
    rw [← h]
  obtain ⟨ht, he⟩ := existsVolume_true d w tr _ name e h1
  rw [h1, he]
  rw [← ht]

theorem isMounted_val (d : VolumeDriver) (w : World) (tr : Trace) (name : GoString)
    (x : Bool × Option GoString) (h : (isMounted d w tr name).2 = .val x) :
    isMounted d w tr name = (tr ++ [mountListing], .val x) := by
  rw [← h, ← isMounted_trace d w tr name]

theorem isMounted_val_true (d : VolumeDriver) (w : World) (tr : Trace) (name : GoString)
    (e : Option GoString) (h : (isMounted d w tr name).2 = .val (true, e)) :
    isMounted d w tr name = (tr ++ [mountListing], .val (true, none)) := by
  have h1 := isMounted_val d w tr name _ h
  obtain ⟨-, he⟩ := isMounted_true d w tr _ name e h1
  rw [h1, he]

theorem removeMountpoint_trace (d : VolumeDriver) (w : World) (tr : Trace) (name : GoString) :
    (removeMountpoint d w tr name).1 = tr ++ [rmdirAction d name] := by
  have h := runCommand_trace w tr "rmdir".toList [getMountpoint d name]
  simp only [removeMountpoint]
  split_ifs <;> exact h

theorem removeMountpoint_result (d : VolumeDriver) (w : World) (tr : Trace) (name : GoString) :
    (removeMountpoint d w tr name).2 = none
      ↔ (w.proc tr "rmdir".toList [getMountpoint d name]).outcome = .exited 0 := by
  rw [← runCommand_status]
  simp only [removeMountpoint]
  split_ifs with h
  · simp; exact h
  · simp; exact not_not.mp h

/-- C5 fails as stated.  The mount table reports `vol1` as mounted under the
mount root, the volume-manager listing does not list it: `DockerRemoveVolume`
fails with the does-not-exist error, not with the still-mounted error. -/
theorem remove_mounted_unlisted_not_found :
    (isMounted exampleDriver (listingWorld mountTableVol1 [] (.exited 0)) []
        "vol1".toList).2 = .val (true, none) ∧
    (DockerRemoveVolume exampleDriver (listingWorld mountTableVol1 [] (.exited 0)) []
        "vol1".toList).2
      = .val (some "Cannot delete volume vol1: it does not exist".toList) := by
  decide

/-- C5, amended.  For a name that the mount-table listing reports as mounted
under the mount root whenever it is consulted: `DockerRemoveVolume` never
succeeds and runs nothing but the listings `mount` and `lvs` (neither
`lvremove` nor `rmdir`).  When the name is in the volume-manager listing
(`existsVolume` gives true) it fails with `Volume <name> is still mounted`;
when the name is absent from a successful volume listing it fails with
`Cannot delete volume <name>: it does not exist`; when the listing fails it
fails with the error of the listing. -/
theorem remove_mounted_fails (d : VolumeDriver) (w : World) (tr : Trace) (name : GoString)
    (hm : ∀ t, ∃ e, (isMounted d w t name).2 = .val (true, e)) :
    (∀ a ∈ (DockerRemoveVolume d w tr name).1.drop tr.length,
      a = mountListing ∨ a = lvsListing d) ∧
    (DockerRemoveVolume d w tr name).2 ≠ .val none ∧
    (∀ e, (existsVolume d w tr name).2 = .val (true, e) →
      DockerRemoveVolume d w tr name
        = (tr ++ [mountListing, lvsListing d, mountListing],
            .val (some (stillMountedError name)))) ∧
    ((existsVolume d w tr name).2 = .val (false, none) →
      DockerRemoveVolume d w tr name
        = (tr ++ [mountListing, lvsListing d],
            .val (some ("Cannot delete volume ".toList ++ name
              ++ ": it does not exist".toList)))) ∧
    (∀ err, (existsVolume d w tr name).2 = .val (false, some err) →
      DockerRemoveVolume d w tr name = ((existsVolume d w tr name).1, .val (some err))) := by
  have key : ∀ e, (existsVolume d w tr name).2 = .val (true, e) →
      DockerRemoveVolume d w tr name
        = (tr ++ [mountListing, lvsListing d, mountListing],
            .val (some (stillMountedError name))) := by
    intro e he
    have hex := existsVolume_val_true d w tr name e he
    obtain ⟨e2, h2⟩ := hm (tr ++ [mountListing, lvsListing d])
    have hmt := isMounted_val_true d w _ name e2 h2
    simp [DockerRemoveVolume, hex, hmt, stillMountedError]
  refine ⟨?_, ?_, key, ?_, ?_⟩
  · cases hx : existsVolume d w tr name with
    | mk t r =>
      have ht := existsVolume_trace d w tr name
      rw [hx] at ht
      simp only at ht
      cases r with
      | panic =>
        simp only [DockerRemoveVolume, hx]
        rcases ht with ht | ht <;> subst ht <;> simp
      | val x =>
        obtain ⟨b, e⟩ := x
        cases b with
        | true =>
          rw [key e (by rw [hx])]
          simp
        | false =>
          simp only [DockerRemoveVolume, hx, Bool.false_eq_true, if_false]
          rcases ht with ht | ht <;> subst ht <;> split_ifs <;> simp
  · cases hx : existsVolume d w tr name with
    | mk t r =>
      cases r with
      | panic => simp [DockerRemoveVolume, hx]
      | val x =>
        obtain ⟨b, e⟩ := x
        cases b with
        | true =>
          rw [key e (by rw [hx])]
          simp
        | false =>
          simp only [DockerRemoveVolume, hx, Bool.false_eq_true, if_false]
          split_ifs with h2
          · cases e with
            | none => exact absurd rfl h2
            | some m => simp
          · simp
  · intro hex
    have h1 : existsVolume d w tr name = ((existsVolume d w tr name).1, .val (false, none)) := by
      rw [← hex]
    have ht := existsVolume_no_error d w tr _ name false h1
    rw [ht] at h1
    simp [DockerRemoveVolume, h1]
  · intro err hex
    have h1 : existsVolume d w tr name
        = ((existsVolume d w tr name).1, .val (false, some err)) := by
      rw [← hex]
    rw [DockerRemoveVolume, h1]
    simp

/-- Witness of C5: `vol1` is mounted and listed. -/
theorem remove_mounted_fails_witness :
    DockerRemoveVolume exampleDriver
        (listingWorld mountTableVol1 "  vol1\n".toList (.exited 0)) [] "vol1".toList
      = ([] ++ [mountListing, lvsListing exampleDriver, mountListing],
          .val (some (stillMountedError "vol1".toList))) :=
  (remove_mounted_fails exampleDriver
    (listingWorld mountTableVol1 "  vol1\n".toList (.exited 0)) [] "vol1".toList
    (fun _ => ⟨none, rfl⟩)).2.2.1 none (by decide)

/-- A single mount call on a mounted volume.  For a name that the mount-table
listing reports as mounted, `DockerMountVolume` returns the mountpoint
`getMountpoint d name` with no error, and the mount-table listing is the only
effect: no `mount` with arguments is run and no directory is created.  Every
mountpoint `DockerMountVolume` returns for the name is that same path. -/
theorem mount_of_mounted (d : VolumeDriver) (w : World) (tr : Trace) (name : GoString)
    (e : Option GoString) (hm : (isMounted d w tr name).2 = .val (true, e)) :
    DockerMountVolume d w tr name
      = (tr ++ [mountListing], .val (some (getMountpoint d name), none)) ∧
    (∀ (w0 : World) (tr0 t0 : Trace) (mp : GoString) (err : Option GoString),
      DockerMountVolume d w0 tr0 name = (t0, .val (some mp, err)) →
        mp = getMountpoint d name ∧ err = none) := by
  constructor
  · have h := isMounted_val_true d w tr name e hm
    simp [DockerMountVolume, h]
  · intro w0 tr0 t0 mp err h
    simp only [DockerMountVolume] at h
    split at h
    · simp at h
    · split_ifs at h
      · simp only [Prod.mk.injEq, Res.val.injEq, Option.some.injEq] at h
        exact ⟨h.2.1.symm, h.2.2.symm⟩
      · simp at h
      · split at h
        · simp at h
        · split at h
          · simp at h
          · simp only [Prod.mk.injEq, Res.val.injEq, Option.some.injEq] at h
            exact ⟨h.2.1.symm, h.2.2.symm⟩

/-- Example: `vol1` is in the mount table. -/
theorem mount_of_mounted_example :
    DockerMountVolume exampleDriver (listingWorld mountTableVol1 [] (.exited 0)) []
        "vol1".toList
      = ([] ++ [mountListing], .val (some (getMountpoint exampleDriver "vol1".toList), none)) ∧
    (∀ (w0 : World) (tr0 t0 : Trace) (mp : GoString) (err : Option GoString),
      DockerMountVolume exampleDriver w0 tr0 "vol1".toList = (t0, .val (some mp, err)) →
        mp = getMountpoint exampleDriver "vol1".toList ∧ err = none) :=
  mount_of_mounted exampleDriver (listingWorld mountTableVol1 [] (.exited 0)) []
    "vol1".toList none (by decide)

/-- C6, evaluated.  Mount is not idempotent when the mount root is written with
a trailing slash.  With the mount root `/mnt/lvm/`, in a world that keeps the
mount table, the first `DockerMountVolume` of `vol1` creates the directory and
mounts `/dev/vg/vol1` at `/mnt/lvm/vol1`; the mount table then holds the line
`/dev/vg/vol1 on /mnt/lvm/vol1 type ext4 (rw,relatime)`, from which
`getMountedVolumes` cuts the name `ol1` (the slice starts at
`len("/mnt/lvm/")+1`), so `isMounted` denies `vol1` and the second call, right
after the first, creates the directory and runs `mount` of the device again.
With the mount root `/mnt/lvm` the same two calls in the same world behave as
the claim says: the second runs the mount-table listing only. -/
theorem mount_twice_mounts_again :
    DockerMountVolume trailingSlashDriver (mountTrackingWorld "  vol1\n".toList) []
        "vol1".toList
      = (mountVol1Effects, .val (some "/mnt/lvm/vol1".toList, none)) ∧
    ((mountTrackingWorld "  vol1\n".toList).proc mountVol1Effects "mount".toList []).stdout
      = "/dev/vg/vol1 on /mnt/lvm/vol1 type ext4 (rw,relatime)\n".toList ∧
    getMountedVolumes trailingSlashDriver (mountTrackingWorld "  vol1\n".toList)
        mountVol1Effects
      = (mountVol1Effects ++ [mountListing], .val (.ok ["ol1".toList])) ∧
    DockerMountVolume trailingSlashDriver (mountTrackingWorld "  vol1\n".toList)
        mountVol1Effects "vol1".toList
      = (mountVol1Effects ++ mountVol1Effects, .val (some "/mnt/lvm/vol1".toList, none)) ∧
    DockerMountVolume exampleDriver (mountTrackingWorld "  vol1\n".toList) [] "vol1".toList
      = (mountVol1Effects, .val (some "/mnt/lvm/vol1".toList, none)) ∧
    DockerMountVolume exampleDriver (mountTrackingWorld "  vol1\n".toList)
        mountVol1Effects "vol1".toList
      = (mountVol1Effects ++ [mountListing], .val (some "/mnt/lvm/vol1".toList, none)) := by
  refine ⟨by decide, by decide, by decide, by decide, by decide, by decide⟩

/-- C7.  `DockerUnmountVolume` reports an error exactly when `umount` exits with
status 0 and the `rmdir` of the mountpoint that follows does not: when `umount`
does not exit with status 0 the result is `nil` whatever `rmdir` does, and when
it does the result is the result of `removeMountpoint`.  In both cases the
effects are `umount` of the device and then one `rmdir` of the mountpoint. -/
theorem unmount_reports_only_rmdir_failure (d : VolumeDriver) (w : World) (tr : Trace)
    (name : GoString) :
    ((DockerUnmountVolume d w tr name).2 ≠ none
      ↔ ((w.proc tr "umount".toList [getDeviceName d name]).outcome = .exited 0
        ∧ (w.proc (tr ++ [umountAction d name]) "rmdir".toList
            [getMountpoint d name]).outcome ≠ .exited 0)) ∧
    ((w.proc tr "umount".toList [getDeviceName d name]).outcome ≠ .exited 0 →
      (DockerUnmountVolume d w tr name).2 = none) ∧
    ((w.proc tr "umount".toList [getDeviceName d name]).outcome = .exited 0 →
      DockerUnmountVolume d w tr name
        = removeMountpoint d w (tr ++ [umountAction d name]) name) ∧
    (DockerUnmountVolume d w tr name).1
      = tr ++ [umountAction d name, rmdirAction d name] := by
  have hs := runCommand_status w tr "umount".toList [getDeviceName d name]
  have ht : (runCommand w tr "umount".toList [getDeviceName d name]).1
      = tr ++ [umountAction d name] := runCommand_trace w tr _ _
  have hrm := removeMountpoint_result d w (tr ++ [umountAction d name]) name
  have hrt := removeMountpoint_trace d w (tr ++ [umountAction d name]) name
  by_cases hu : (w.proc tr "umount".toList [getDeviceName d name]).outcome = .exited 0
  · have hst := hs.mpr hu
    have hD : DockerUnmountVolume d w tr name
        = removeMountpoint d w (tr ++ [umountAction d name]) name := by
      simp only [DockerUnmountVolume, unmount, hst, ne_eq, not_true_eq_false, if_false, ht]
    refine ⟨?_, fun h => absurd hu h, fun _ => hD, ?_⟩
    · rw [hD]
      constructor
      · intro h
        exact ⟨hu, fun h2 => h (hrm.mpr h2)⟩
      · intro h h2
        exact h.2 (hrm.mp h2)
    · rw [hD, hrt]
      simp
  · have hst : (runCommand w tr "umount".toList [getDeviceName d name]).2.status ≠ 0 :=
      fun h => hu (hs.mp h)
    have hD : DockerUnmountVolume d w tr name
        = ((removeMountpoint d w (tr ++ [umountAction d name]) name).1, none) := by
      simp only [DockerUnmountVolume, unmount, hst, ne_eq, not_false_eq_true, if_true, ht]
    refine ⟨?_, fun _ => by rw [hD], fun h => absurd h hu, ?_⟩
    · rw [hD]
      constructor
      · intro h
        exact absurd rfl h
      · intro h
        exact absurd h.1 hu
    · rw [hD, hrt]
      simp

/-- C8.  For a name that is in the volume listing and that both mount-table
checks (the one of `DockerRemoveVolume` and the one of `removeLogicalVolume`)
report as not mounted: when `lvremove` exits with status 0 the result is
success, whatever the `rmdir` of the mountpoint that follows does; when it does
not, the result is the failure message of the command and `rmdir` is not run.
For a name absent from a successful volume listing the result is
`Cannot delete volume <name>: it does not exist` and only the two listings
are run. -/
theorem remove_unmounted_volume (d : VolumeDriver) (w : World) (tr : Trace)
    (name : GoString) :
    ((existsVolume d w tr name).2 = .val (true, none) →
      (isMounted d w (tr ++ [mountListing, lvsListing d]) name).2 = .val (false, none) →
      (isMounted d w (tr ++ [mountListing, lvsListing d, mountListing]) name).2
        = .val (false, none) →
      ((w.proc (tr ++ [mountListing, lvsListing d, mountListing, mountListing])
            "lvremove".toList ["-f".toList, getDeviceName d name]).outcome = .exited 0 →
        DockerRemoveVolume d w tr name
          = (tr ++ [mountListing, lvsListing d, mountListing, mountListing,
              lvremoveAction d name, rmdirAction d name], .val none)) ∧
      ((w.proc (tr ++ [mountListing, lvsListing d, mountListing, mountListing])
            "lvremove".toList ["-f".toList, getDeviceName d name]).outcome ≠ .exited 0 →
        DockerRemoveVolume d w tr name
          = (tr ++ [mountListing, lvsListing d, mountListing, mountListing,
              lvremoveAction d name],
            .val (some (runCommand w
              (tr ++ [mountListing, lvsListing d, mountListing, mountListing])
              "lvremove".toList ["-f".toList, getDeviceName d name]).2.String)))) ∧
    ((existsVolume d w tr name).2 = .val (false, none) →
      DockerRemoveVolume d w tr name
        = (tr ++ [mountListing, lvsListing d],
            .val (some ("Cannot delete volume ".toList ++ name
              ++ ": it does not exist".toList)))) := by
  constructor
  · intro hex hm1 hm2
    have hx := existsVolume_val_true d w tr name none hex
    have h1 := isMounted_val d w _ name _ hm1
    have h2 := isMounted_val d w _ name _ hm2
    have hs := runCommand_status w
      (tr ++ [mountListing, lvsListing d, mountListing, mountListing])
      "lvremove".toList ["-f".toList, getDeviceName d name]
    have ht := runCommand_trace w
      (tr ++ [mountListing, lvsListing d, mountListing, mountListing])
      "lvremove".toList ["-f".toList, getDeviceName d name]
    have hD : DockerRemoveVolume d w tr name
        = removeLogicalVolume d w (tr ++ [mountListing, lvsListing d, mountListing]) name := by
      simp only [List.append_assoc, List.cons_append, List.nil_append] at h1
      simp [DockerRemoveVolume, hx, h1]
    simp only [List.append_assoc, List.cons_append, List.nil_append] at h2 hs ht ⊢
    constructor
    · intro hlv
      have hst := hs.mpr hlv
      rw [hD]
      simp only [removeLogicalVolume, h2, Bool.false_eq_true, if_false, ne_eq,
        not_true_eq_false, hst, removeMountpoint_trace, ht]
      simp [lvremoveAction]
    · intro hlv
      have hst : ¬ _ := fun h => hlv (hs.mp h)
      rw [hD]
      simp only [removeLogicalVolume, h2, Bool.false_eq_true, if_false, ne_eq,
        not_true_eq_false, hst, not_false_eq_true, if_true, ht]
      simp [lvremoveAction]
  · intro hex
    have h1 : existsVolume d w tr name = ((existsVolume d w tr name).1, .val (false, none)) := by
      rw [← hex]
    have ht := existsVolume_no_error d w tr _ name false h1
    rw [ht] at h1
    simp [DockerRemoveVolume, h1]

/-- Witness of C8: `vol2` is listed and not mounted and `lvremove` succeeds
while `rmdir` fails; `vol3` is not listed. -/
theorem remove_unmounted_volume_witness :
    DockerRemoveVolume exampleDriver
        (rmdirFailingWorld mountTableVol1 "  vol1\n  vol2\n".toList) [] "vol2".toList
      = ([] ++ [mountListing, lvsListing exampleDriver, mountListing, mountListing,
          lvremoveAction exampleDriver "vol2".toList, rmdirAction exampleDriver "vol2".toList],
          .val none) ∧
    DockerRemoveVolume exampleDriver (listingWorld mountTableVol1 "  vol1\n".toList .runError)
        [] "vol3".toList
      = ([] ++ [mountListing, lvsListing exampleDriver],
          .val (some ("Cannot delete volume ".toList ++ "vol3".toList
            ++ ": it does not exist".toList))) :=
  ⟨((remove_unmounted_volume exampleDriver _ [] "vol2".toList).1 (by decide) (by decide)
      (by decide)).1 (by decide),
   (remove_unmounted_volume exampleDriver _ [] "vol3".toList).2 (by decide)⟩

/-! ## The listings -/

theorem runCommand_stdout (w : World) (tr : Trace) (cmdName : GoString) (args : List GoString) :
    (runCommand w tr cmdName args).2.stdout = (w.proc tr cmdName args).stdout := by
  simp only [runCommand]
  split
  · split_ifs <;> rfl
  · rfl

/-- C9 fails as stated.  First, the line `vol1<TAB>` of the `lvs` output gives a
volume whose name still ends in the tab: `strings.Trim` is called with the cut
set of newline and space only.  Second, with the mount root itself a mount
target both listings exit with status 0 and `listVolumes` has no result at
all: `getMountedVolumes` panics on the slice of the mount target. -/
theorem listVolumes_keeps_tab_and_panics :
    listVolumes exampleDriver (listingWorld mountTableVol1 "  vol1\t\n".toList (.exited 0)) []
      = ([mountListing, lvsListing exampleDriver],
          .val (.ok [{ Name := "vol1\t".toList, Mountpoint := [] }])) ∧
    listVolumes exampleDriver (listingWorld mountTableRootMounted "  vol1\n".toList (.exited 0))
        []
      = ([mountListing], .panic) := by
  decide

/-- C9, amended.  When `mount` does not exit with status 0, `listVolumes`
returns an error and no volumes.  When `getMountedVolumes` returns the names
`mounted`: if `lvs` exits with status 0 the result has one `Volume` per line
that the scanner reads from the `lvs` output, in the same order, whose `Name`
is the line without its leading and trailing spaces and newlines and whose
`Mountpoint` is `getMountpoint d Name` when `Name` is among `mounted` and the
empty string otherwise; if `lvs` does not exit with status 0 the result is an
error and no volumes. -/
theorem listVolumes_reflects_listing (d : VolumeDriver) (w : World) (tr : Trace) :
    ((w.proc tr "mount".toList []).outcome ≠ .exited 0 →
      ∃ err, listVolumes d w tr = (tr ++ [mountListing], .val (.error err))) ∧
    (∀ mounted : List GoString,
      (getMountedVolumes d w tr).2 = .val (.ok mounted) →
      ((w.proc (tr ++ [mountListing]) "lvs".toList (lvsArgs d)).outcome = .exited 0 →
        listVolumes d w tr
          = (tr ++ [mountListing, lvsListing d],
              .val (.ok ((scanLines
                (w.proc (tr ++ [mountListing]) "lvs".toList (lvsArgs d)).stdout).map
                  (volumeOfLine d mounted)))))
      ∧ ((w.proc (tr ++ [mountListing]) "lvs".toList (lvsArgs d)).outcome ≠ .exited 0 →
        ∃ err, listVolumes d w tr
          = (tr ++ [mountListing, lvsListing d], .val (.error err)))) := by
  have hs0 := runCommand_status w tr "mount".toList []
  have ht0 : (runCommand w tr "mount".toList []).1 = tr ++ [mountListing] :=
    runCommand_trace w tr _ _
  constructor
  · intro hne
    have hst : ¬ (runCommand w tr "mount".toList []).2.status = 0 := fun h => hne (hs0.mp h)
    simp only [listVolumes, getMountedVolumes, hst, if_false, ht0]
    exact ⟨_, rfl⟩
  · intro mounted hm
    have hg : getMountedVolumes d w tr = (tr ++ [mountListing], .val (.ok mounted)) := by
      rw [← hm, ← getMountedVolumes_trace d w tr]
    have hs := runCommand_status w (tr ++ [mountListing]) "lvs".toList (lvsArgs d)
    have ht : (runCommand w (tr ++ [mountListing]) "lvs".toList (lvsArgs d)).1
        = tr ++ [mountListing, lvsListing d] := by
      rw [runCommand_trace]; simp [lvsListing, lvsArgs]
    have hout := runCommand_stdout w (tr ++ [mountListing]) "lvs".toList (lvsArgs d)
    have hfun : (fun text : GoString =>
        ({ Name := stringsTrim text "\n ".toList,
           Mountpoint := if arrayToMap mounted (stringsTrim text "\n ".toList) = true then
             getMountpoint d (stringsTrim text "\n ".toList) else [] } : Volume))
        = volumeOfLine d mounted := by
      funext text
      simp [volumeOfLine, arrayToMap]
    constructor
    · intro h0
      have hst := hs.mpr h0
      simp only [lvsArgs] at hst ht hout
      simp only [listVolumes, hg, hst, ne_eq, not_true_eq_false, if_false, ht, hout, hfun,
        lvsArgs]
    · intro hne
      have hst : ¬ _ := fun h => hne (hs.mp h)
      simp only [lvsArgs] at hst ht
      simp only [listVolumes, hg, hst, ne_eq, not_false_eq_true, if_true, ht]
      exact ⟨_, rfl⟩

/-- Witness of C9: `vol1` is mounted, `vol2` is not. -/
theorem listVolumes_reflects_listing_witness :
    listVolumes exampleDriver (listingWorld mountTableVol1 "  vol1\n  vol2\n".toList .runError)
        []
      = ([] ++ [mountListing, lvsListing exampleDriver],
          .val (.ok ((scanLines
            ((listingWorld mountTableVol1 "  vol1\n  vol2\n".toList .runError).proc
              ([] ++ [mountListing]) "lvs".toList (lvsArgs exampleDriver)).stdout).map
                (volumeOfLine exampleDriver ["vol1".toList])))) :=
  ((listVolumes_reflects_listing exampleDriver
      (listingWorld mountTableVol1 "  vol1\n  vol2\n".toList .runError) []).2
    ["vol1".toList] (by decide)).1 (by decide)

/-! ## The mount table -/

theorem stringsContains_iff (s substr : GoString) :
    stringsContains s substr = true ↔ substr <:+: s := by
  induction s with
  | nil => cases substr <;> simp [stringsContains]
  | cons c cs ih =>
    rw [stringsContains, Bool.or_eq_true, ih, List.infix_cons_iff, List.isPrefixOf_iff_prefix]

theorem splitOn_ne_nil (sep : Char) (s : GoString) : splitOn sep s ≠ [] := by
  cases s with
  | nil => simp [splitOn]
  | cons c cs =>
    rw [splitOn]
    split_ifs
    · simp
    · split <;> simp

theorem splitOn_fields (sep : Char) (s : GoString) :
    (∀ f, (splitOn sep s).head? = some f → f <+: s) ∧ (∀ f ∈ splitOn sep s, f <:+: s) := by
  induction s with
  | nil =>
    simp [splitOn]
  | cons c cs ih =>
    obtain ⟨ih1, ih2⟩ := ih
    rw [splitOn]
    split_ifs with hc
    · constructor
      · intro f hf
        simp only [List.head?_cons, Option.some.injEq] at hf
        subst hf
        exact List.nil_prefix
      · intro f hf
        rcases List.mem_cons.mp hf with h | h
        · subst h
          exact List.nil_prefix.isInfix
        · exact List.infix_cons (ih2 f h)
    · cases hsp : splitOn sep cs with
      | nil => exact absurd hsp (splitOn_ne_nil sep cs)
      | cons g gs =>
        rw [hsp] at ih1 ih2
        have hg : g <+: cs := ih1 g rfl
        simp only
        constructor
        · intro f hf
          simp only [List.head?_cons, Option.some.injEq] at hf
          subst hf
          exact (List.prefix_cons_inj c).mpr hg
        · intro f hf
          rcases List.mem_cons.mp hf with h | h
          · subst h
            exact ((List.prefix_cons_inj c).mpr hg).isInfix
          · exact List.infix_cons (ih2 f (List.mem_cons_of_mem _ h))

/-- A line whose mount target is the mount root, a slash and a name contains
the mount root, can be parsed and gives the name. -/
theorem mountLine_of_target (mountRoot line name : GoString)
    (h : (splitOn ' ' line).get? 2 = some (mountRoot ++ '/' :: name)) :
    stringsContains line mountRoot = true ∧ ParsableMountLine mountRoot line ∧
      volumeOfMountLine mountRoot line = name := by
  refine ⟨?_, ⟨_, h, by simp⟩, ?_⟩
  · rw [stringsContains_iff]
    have hf := (splitOn_fields ' ' line).2 _ (List.get?_mem h)
    exact (List.prefix_append mountRoot ('/' :: name)).isInfix.trans hf
  · simp only [volumeOfMountLine, mountTarget, h, Option.getD_some]
    rw [show mountRoot ++ '/' :: name = (mountRoot ++ ['/']) ++ name by simp]
    exact List.drop_left' (by simp)

theorem mountedLoop_parsable (mountRoot : GoString) (lines volumes : List GoString)
    (hp : ∀ line ∈ lines, stringsContains line mountRoot = true →
      ParsableMountLine mountRoot line) :
    mountedLoop mountRoot lines volumes
      = .val (volumes ++ (lines.filter (fun line => stringsContains line mountRoot)).map
          (volumeOfMountLine mountRoot)) := by
  induction lines generalizing volumes with
  | nil => simp [mountedLoop]
  | cons line rest ih =>
    have hrest : ∀ l ∈ rest, stringsContains l mountRoot = true →
        ParsableMountLine mountRoot l := fun l hl => hp l (List.mem_cons_of_mem _ hl)
    rw [mountedLoop]
    by_cases hc : stringsContains line mountRoot = true
    · obtain ⟨mp, hmp, hlen⟩ := hp line (List.mem_cons_self _ _) hc
      have hnot : ¬ (mountRoot.length + 1 > mp.length) := by omega
      simp only [hc, if_true, hmp, hnot, if_false]
      rw [ih _ hrest]
      have hmp2 : (splitOn ' ' line)[2]? = some mp := by
        rw [← List.get?_eq_getElem?]; exact hmp
      simp [List.filter_cons, hc, volumeOfMountLine, mountTarget, hmp2]
    · simp only [hc, Bool.false_eq_true, if_false]
      rw [ih _ hrest]
      simp [List.filter_cons, hc]

/-- C10, evaluated.  With the mount root `/mnt/lvm`, the line
`/mnt/lvm/disk.img on /backups/vol1 ...` is selected although its mount target
is not under the mount root (the root occurs in the device field) and gives the
name `vol1`, so `isMounted` holds of `vol1` while no mount target is
`/mnt/lvm/vol1`; the target `/mnt/lvm/a/b` gives `a/b`, not its trailing path
component `b`.  With the mount root `/mnt/lvm/` the mount target
`/mnt/lvm/vol1`, which is `getMountpoint` of `vol1`, gives the name `ol1`, so
`isMounted` denies `vol1` although an entry has its mountpoint as target.  And
with the mount root itself a mount target the listing exits with status 0 and
`getMountedVolumes` panics. -/
theorem getMountedVolumes_selects_by_substring :
    getMountedVolumes exampleDriver (listingWorld mountTableForeign [] (.exited 0)) []
      = ([mountListing], .val (.ok ["vol1".toList, "a/b".toList])) ∧
    (isMounted exampleDriver (listingWorld mountTableForeign [] (.exited 0)) []
        "vol1".toList).2 = .val (true, none) ∧
    (∀ line ∈ scanLines mountTableForeign, mountTarget line ≠ "/mnt/lvm/vol1".toList) ∧
    getMountpoint trailingSlashDriver "vol1".toList = "/mnt/lvm/vol1".toList ∧
    mountTarget "/dev/mapper/vg-vol1 on /mnt/lvm/vol1 type ext4 (rw,relatime)".toList
      = "/mnt/lvm/vol1".toList ∧
    getMountedVolumes trailingSlashDriver (listingWorld mountTableVol1 [] (.exited 0)) []
      = ([mountListing], .val (.ok ["ol1".toList])) ∧
    (isMounted trailingSlashDriver (listingWorld mountTableVol1 [] (.exited 0)) []
        "vol1".toList).2 = .val (false, none) ∧
    getMountedVolumes exampleDriver (listingWorld mountTableRootMounted [] (.exited 0)) []
      = ([mountListing], .panic) := by
  refine ⟨by decide, by decide, by decide, by decide, by decide, by decide, by decide,
    by decide⟩

/-- What the parser of the mount table computes.  `getMountedVolumes` returns
an error exactly when the listing command does not exit with status 0.  When
it exits with status 0 and every scanned line that contains the mount root has
a third space-separated field of at least `len(MountRoot)+1` bytes, it yields,
for the scanned lines that contain the mount root as a substring and in their
order, the third field without its first `len(MountRoot)+1` bytes; `isMounted`
holds of a name exactly when a selected line yields it, and in particular when
the mount target of some line is the mount root, a slash and the name. -/
theorem getMountedVolumes_parsable (d : VolumeDriver) (w : World) (tr : Trace) :
    ((∃ err, (getMountedVolumes d w tr).2 = .val (.error err))
      ↔ (w.proc tr "mount".toList []).outcome ≠ .exited 0) ∧
    ((w.proc tr "mount".toList []).outcome = .exited 0 →
      (∀ line ∈ scanLines (w.proc tr "mount".toList []).stdout,
        stringsContains line d.MountRoot = true → ParsableMountLine d.MountRoot line) →
      getMountedVolumes d w tr
        = (tr ++ [mountListing],
            .val (.ok (((scanLines (w.proc tr "mount".toList []).stdout).filter
              (fun line => stringsContains line d.MountRoot)).map
                (volumeOfMountLine d.MountRoot)))) ∧
      (∀ name, ∃ b, (isMounted d w tr name).2 = .val (b, none) ∧
        (b = true ↔ ∃ line ∈ scanLines (w.proc tr "mount".toList []).stdout,
          stringsContains line d.MountRoot = true ∧
            volumeOfMountLine d.MountRoot line = name)) ∧
      (∀ name,
        (∃ line ∈ scanLines (w.proc tr "mount".toList []).stdout,
          (splitOn ' ' line).get? 2 = some (d.MountRoot ++ '/' :: name)) →
        (isMounted d w tr name).2 = .val (true, none))) := by
  have hs := runCommand_status w tr "mount".toList []
  have ht : (runCommand w tr "mount".toList []).1 = tr ++ [mountListing] :=
    runCommand_trace w tr _ _
  have hout := runCommand_stdout w tr "mount".toList []
  constructor
  · constructor
    · rintro ⟨err, he⟩ h0
      have hst := hs.mpr h0
      simp only [getMountedVolumes, hst, if_true] at he
      split at he <;> simp at he
    · intro hne
      have hst : ¬ _ := fun h => hne (hs.mp h)
      simp only [getMountedVolumes, hst, if_false]
      exact ⟨_, rfl⟩
  · intro h0 hp
    have hst := hs.mpr h0
    have hloop := mountedLoop_parsable d.MountRoot _ [] hp
    have hg : getMountedVolumes d w tr
        = (tr ++ [mountListing],
            .val (.ok (((scanLines (w.proc tr "mount".toList []).stdout).filter
              (fun line => stringsContains line d.MountRoot)).map
                (volumeOfMountLine d.MountRoot)))) := by
      simp only [getMountedVolumes, hst, if_true, hout, hloop, ht, List.nil_append]
    have hmem : ∀ name, ∃ b, (isMounted d w tr name).2 = .val (b, none) ∧
        (b = true ↔ ∃ line ∈ scanLines (w.proc tr "mount".toList []).stdout,
          stringsContains line d.MountRoot = true ∧
            volumeOfMountLine d.MountRoot line = name) := by
      intro name
      have hi : (isMounted d w tr name).2
          = .val ((((scanLines (w.proc tr "mount".toList []).stdout).filter
              (fun line => stringsContains line d.MountRoot)).map
                (volumeOfMountLine d.MountRoot)).any (fun v => v = name), none) := by
        simp only [isMounted, hg]
      refine ⟨_, hi, ?_⟩
      simp only [List.any_eq_true, List.mem_map, List.mem_filter, decide_eq_true_eq]
      constructor
      · rintro ⟨v, ⟨line, ⟨hl, hc⟩, rfl⟩, hv⟩
        exact ⟨line, hl, hc, hv⟩
      · rintro ⟨line, hl, hc, hv⟩
        exact ⟨_, ⟨line, ⟨hl, hc⟩, rfl⟩, hv⟩
    refine ⟨hg, hmem, ?_⟩
    rintro name ⟨line, hl, htarget⟩
    obtain ⟨hc, -, hv⟩ := mountLine_of_target d.MountRoot line name htarget
    obtain ⟨b, hb, hiff⟩ := hmem name
    have hbt : b = true := hiff.mpr ⟨line, hl, hc, hv⟩
    rw [hb, hbt]

/-- Example: the mount table with the single entry of `vol1`. -/
theorem getMountedVolumes_parsable_example :
    getMountedVolumes exampleDriver (listingWorld mountTableVol1 [] (.exited 0)) []
        = ([] ++ [mountListing],
            .val (.ok (((scanLines ((listingWorld mountTableVol1 [] (.exited 0)).proc []
                "mount".toList []).stdout).filter
              (fun line => stringsContains line exampleDriver.MountRoot)).map
                (volumeOfMountLine exampleDriver.MountRoot)))) ∧
    (isMounted exampleDriver (listingWorld mountTableVol1 [] (.exited 0)) []
        "vol1".toList).2 = .val (true, none) :=
  ⟨((getMountedVolumes_parsable exampleDriver (listingWorld mountTableVol1 [] (.exited 0))
      []).2 (by decide) (by decide)).1,
   ((getMountedVolumes_parsable exampleDriver (listingWorld mountTableVol1 [] (.exited 0))
      []).2 (by decide) (by decide)).2.2 "vol1".toList
      ⟨"/dev/mapper/vg-vol1 on /mnt/lvm/vol1 type ext4 (rw,relatime)".toList,
        by decide, by decide⟩⟩

/-! ## Get and path -/

/-- C11.  `dockerGetVolume` fails with `Volume <name> does not exist` for every
name that `existsVolume` does not find in the volume listing.  For a name that
is in the listing, when the mount-table check that follows succeeds, it
returns a `Volume` with `Name = name` whose `Mountpoint` is
`getMountpoint d name` when the name is mounted and empty otherwise, with no
error. -/
theorem dockerGetVolume_result (d : VolumeDriver) (w : World) (tr : Trace)
    (name : GoString) :
    (∀ e, (existsVolume d w tr name).2 = .val (false, e) →
      (dockerGetVolume d w tr name).2 = .val (none, some (notFoundError name))) ∧
    (∀ e b, (existsVolume d w tr name).2 = .val (true, e) →
      (isMounted d w (tr ++ [mountListing, lvsListing d]) name).2 = .val (b, none) →
      dockerGetVolume d w tr name
        = (tr ++ [mountListing, lvsListing d, mountListing],
            .val (some { Name := name,
                         Mountpoint := if b = true then getMountpoint d name else [] },
              none))) := by
  constructor
  · intro e he
    have h1 : existsVolume d w tr name = ((existsVolume d w tr name).1, .val (false, e)) := by
      rw [← he]
    rw [dockerGetVolume, h1]
    simp [notFoundError]
  · intro e b he hm
    have hx := existsVolume_val_true d w tr name e he
    have h1 := isMounted_val d w _ name _ hm
    simp only [List.append_assoc, List.cons_append, List.nil_append] at h1
    cases b <;> simp [dockerGetVolume, hx, h1]

/-- Witness of C11: the listed, unmounted volume `vol1`. -/
theorem dockerGetVolume_result_witness :
    dockerGetVolume exampleDriver (listingWorld [] "  vol1\n".toList (.exited 0)) []
        "vol1".toList
      = ([] ++ [mountListing, lvsListing exampleDriver, mountListing],
          .val (some { Name := "vol1".toList,
                       Mountpoint := if false = true
                         then getMountpoint exampleDriver "vol1".toList else [] },
            none)) :=
  (dockerGetVolume_result exampleDriver (listingWorld [] "  vol1\n".toList (.exited 0)) []
    "vol1".toList).2 none false (by decide) (by decide)

/-- C12.  `DockerVolumePath` returns a path with no error exactly when
`getMountedVolumes` returns names and the name is among them, and the path is
then `getMountpoint d name`; when the listing returns names without the name it
fails with `Volume <name> not mounted`; when the listing returns an error it
fails with that error.  The path returned is the join of the mount root and
the name, whatever the rest of the configuration, the world and the trace. -/
theorem dockerVolumePath_result (d : VolumeDriver) (w : World) (tr : Trace)
    (name : GoString) :
    (∀ p, (DockerVolumePath d w tr name).2 = .val (some p, none)
      ↔ (p = getMountpoint d name
        ∧ ∃ vols, (getMountedVolumes d w tr).2 = .val (.ok vols) ∧ name ∈ vols)) ∧
    (∀ vols, (getMountedVolumes d w tr).2 = .val (.ok vols) → name ∉ vols →
      DockerVolumePath d w tr name
        = (tr ++ [mountListing], .val (none, some (notMountedError name)))) ∧
    (∀ err, (getMountedVolumes d w tr).2 = .val (.error err) →
      DockerVolumePath d w tr name = (tr ++ [mountListing], .val (none, some err))) ∧
    (∀ (d2 : VolumeDriver) (w2 : World) (tr2 t2 : Trace) (p : GoString)
        (err : Option GoString),
      d2.MountRoot = d.MountRoot →
      DockerVolumePath d2 w2 tr2 name = (t2, .val (some p, err)) →
      p = filepathJoin [d.MountRoot, name]) := by
  have ht := getMountedVolumes_trace d w tr
  refine ⟨?_, ?_, ?_, ?_⟩
  · intro p
    cases hg : getMountedVolumes d w tr with
    | mk t r =>
      cases r with
      | panic => simp [DockerVolumePath, isMounted, hg]
      | val x =>
        cases x with
        | error err => simp [DockerVolumePath, isMounted, hg]
        | ok vols =>
          by_cases hmem : name ∈ vols
          · have hany : (vols.any fun v => decide (v = name)) = true := by
              simp [List.any_eq_true, hmem]
            simp only [DockerVolumePath, isMounted, hg, hany, if_true]
            constructor
            · intro h
              simp only [Res.val.injEq, Prod.mk.injEq, Option.some.injEq, and_true] at h
              exact ⟨h.symm, vols, rfl, hmem⟩
            · rintro ⟨hp, -⟩
              rw [hp]
          · have hany : (vols.any fun v => decide (v = name)) = false := by
              simp only [List.any_eq_false, decide_eq_true_eq]
              exact fun x hx hxn => hmem (hxn ▸ hx)
            simp only [DockerVolumePath, isMounted, hg, hany]
            constructor
            · intro h
              simp at h
            · rintro ⟨-, vols2, hv, hm2⟩
              simp only [Res.val.injEq, Except.ok.injEq] at hv
              exact absurd (hv ▸ hm2) hmem
  · intro vols hv hmem
    have hg : getMountedVolumes d w tr = (tr ++ [mountListing], .val (.ok vols)) := by
      rw [← hv, ← ht]
    have hany : (vols.any fun v => decide (v = name)) = false := by
      simp only [List.any_eq_false, decide_eq_true_eq]
      exact fun x hx hxn => hmem (hxn ▸ hx)
    simp [DockerVolumePath, isMounted, hg, hany, notMountedError]
  · intro err hv
    have hg : getMountedVolumes d w tr = (tr ++ [mountListing], .val (.error err)) := by
      rw [← hv, ← ht]
    simp [DockerVolumePath, isMounted, hg]
  · intro d2 w2 tr2 t2 p err hroot h
    simp only [DockerVolumePath] at h
    split at h
    · simp at h
    · split_ifs at h
      · simp only [Prod.mk.injEq, Res.val.injEq, Option.some.injEq] at h
        rw [← h.2.1, getMountpoint, hroot]
      · simp at h
      · simp at h

/-! ## Errors of the existence check -/

/-- C18.  Whenever `existsVolume` returns false, also when it does so with the
error of a failed listing, `dockerGetVolume` returns the error
`Volume <name> does not exist`; `existsVolume` never returns true together with
an error, so the branch of `dockerGetVolume` that returns the error of the
check is never taken.  `DockerCreateVolume` and `DockerRemoveVolume` return the
error of the listing in that situation. -/
theorem dockerGetVolume_masks_listing_error (d : VolumeDriver) (w : World) (tr : Trace)
    (name : GoString) :
    (∀ e, (existsVolume d w tr name).2 = .val (false, e) →
      (dockerGetVolume d w tr name).2 = .val (none, some (notFoundError name))) ∧
    (∀ e, (existsVolume d w tr name).2 = .val (true, e) → e = none) ∧
    (∀ (err : GoString) (options : GoString → Option GoString),
      (existsVolume d w tr name).2 = .val (false, some err) →
      (DockerCreateVolume d w tr name options).2 = .val (some err)
        ∧ (DockerRemoveVolume d w tr name).2 = .val (some err)) := by
  refine ⟨?_, ?_, ?_⟩
  · intro e he
    have h1 : existsVolume d w tr name = ((existsVolume d w tr name).1, .val (false, e)) := by
      rw [← he]
    rw [dockerGetVolume, h1]
    simp [notFoundError]
  · intro e he
    have h1 : existsVolume d w tr name = ((existsVolume d w tr name).1, .val (true, e)) := by
      rw [← he]
    exact (existsVolume_true d w tr _ name e h1).2
  · intro err options he
    have h1 : existsVolume d w tr name
        = ((existsVolume d w tr name).1, .val (false, some err)) := by
      rw [← he]
    constructor
    · rw [DockerCreateVolume, h1]
      simp
    · rw [DockerRemoveVolume, h1]
      simp

/-- Witness of C18: every listing fails with status 32. -/
theorem dockerGetVolume_masks_listing_error_witness :
    (dockerGetVolume exampleDriver failingWorld [] "vol1".toList).2
      = .val (none, some (notFoundError "vol1".toList)) ∧
    ((DockerCreateVolume exampleDriver failingWorld [] "vol1".toList noOptions).2
        = .val (some "Unable to retrieve mountpoints. Return code: 32: denied".toList)
      ∧ (DockerRemoveVolume exampleDriver failingWorld [] "vol1".toList).2
        = .val (some "Unable to retrieve mountpoints. Return code: 32: denied".toList)) :=
  ⟨(dockerGetVolume_masks_listing_error exampleDriver failingWorld [] "vol1".toList).1
      (some "Unable to retrieve mountpoints. Return code: 32: denied".toList) (by decide),
   (dockerGetVolume_masks_listing_error exampleDriver failingWorld [] "vol1".toList).2.2
      "Unable to retrieve mountpoints. Return code: 32: denied".toList noOptions
      (by decide)⟩

/-! ## Faults of the mount-table parser -/

/-- A scanned line that contains the mount root and has no third field, or a
third field shorter than `len(MountRoot)+1`, makes the parsing loop panic. -/
theorem mountedLoop_panics (mountRoot : GoString) (lines volumes : List GoString)
    (h : ∃ line ∈ lines, stringsContains line mountRoot = true
      ∧ ¬ ParsableMountLine mountRoot line) :
    mountedLoop mountRoot lines volumes = .panic := by
  induction lines generalizing volumes with
  | nil =>
    obtain ⟨line, hl, -⟩ := h
    simp at hl
  | cons line rest ih =>
    rw [mountedLoop]
    by_cases hc : stringsContains line mountRoot = true
    · simp only [hc, if_true]
      cases hmp : (splitOn ' ' line).get? 2 with
      | none => rfl
      | some mp =>
        simp only
        by_cases hlen : mountRoot.length + 1 > mp.length
        · simp only [hlen, if_true]
        · simp only [hlen, if_false]
          apply ih
          obtain ⟨bad, hb, hbc, hbp⟩ := h
          rcases List.mem_cons.mp hb with heq | hr
          · subst heq
            exact absurd ⟨mp, hmp, by omega⟩ hbp
          · exact ⟨bad, hr, hbc, hbp⟩
    · simp only [hc, Bool.false_eq_true, if_false]
      apply ih
      obtain ⟨bad, hb, hbc, hbp⟩ := h
      rcases List.mem_cons.mp hb with heq | hr
      · subst heq
        exact absurd hbc hc
      · exact ⟨bad, hr, hbc, hbp⟩

/-- C16.  `getMountedVolumes` is not total.  With the mount root `/mnt/lvm` and
a `mount` that exits with status 0, it panics on the slice
`mountpath[len(MountRoot)+1:len(mountpath)]` when the mount root itself is a
mount target (third field `/mnt/lvm`, 8 bytes, lower bound 9) and when the root
occurs in the device field only (third field `/data`), and it panics on the
index `strings.Split(line, " ")[2]` for a line that contains the root and has a
single field. -/
theorem getMountedVolumes_not_total :
    getMountedVolumes exampleDriver (listingWorld mountTableRootMounted [] (.exited 0)) []
      = ([mountListing], .panic) ∧
    getMountedVolumes exampleDriver (listingWorld mountTableDeviceOnly [] (.exited 0)) []
      = ([mountListing], .panic) ∧
    getMountedVolumes exampleDriver (listingWorld mountTableOneField [] (.exited 0)) []
      = ([mountListing], .panic) ∧
    mountTarget "/dev/sdb1 on /mnt/lvm type ext4 (rw,relatime)".toList = "/mnt/lvm".toList ∧
    mountTarget "/mnt/lvm/disk.img on /data type ext4 (rw,relatime)".toList
      = "/data".toList ∧
    (splitOn ' ' "/mnt/lvm/vol1".toList).length = 1 := by
  decide

/-! ## Paths derived from a volume name -/

theorem splitOn_no_sep (sep : Char) (s : GoString) (h : sep ∉ s) : splitOn sep s = [s] := by
  induction s with
  | nil => rfl
  | cons c cs ih =>
    have hc : ¬ c = sep := fun e => h (e ▸ List.mem_cons_self _ _)
    have hcs : sep ∉ cs := fun m => h (List.mem_cons_of_mem _ m)
    rw [splitOn, if_neg hc, ih hcs]

theorem splitOn_append_sep (sep : Char) (a b : GoString) :
    splitOn sep (a ++ sep :: b) = splitOn sep a ++ splitOn sep b := by
  induction a with
  | nil => simp [splitOn]
  | cons c cs ih =>
    rw [List.cons_append, splitOn, splitOn]
    by_cases hc : c = sep
    · simp only [hc, if_true, ih, List.cons_append]
    · simp only [hc, if_false, ih]
      cases hs : splitOn sep cs with
      | nil => exact absurd hs (splitOn_ne_nil sep cs)
      | cons f fs => simp

theorem cleanElems_append_plain (rooted : Bool) (e : GoString) (he : PlainElement e)
    (es stack : List GoString) :
    cleanElems rooted stack (es ++ [e]) = cleanElems rooted stack es ++ [e] := by
  obtain ⟨h1, -, h3, h4⟩ := he
  induction es generalizing stack with
  | nil =>
    simp [cleanElems, h1, h3, h4]
  | cons x xs ih =>
    cases stack <;> simp only [List.cons_append, cleanElems] <;> split_ifs <;> exact ih _

theorem intercalate_append_single (sep : GoString) (xs : List GoString) (e : GoString)
    (hx : xs ≠ []) :
    List.intercalate sep (xs ++ [e]) = List.intercalate sep xs ++ sep ++ e := by
  induction xs with
  | nil => exact absurd rfl hx
  | cons a t ih =>
    cases t with
    | nil => simp [List.intercalate, List.intersperse]
    | cons b t2 =>
      have h := ih (by simp)
      simp only [List.intercalate, List.cons_append, List.intersperse, List.flatten_cons,
        List.append_assoc] at h ⊢
      exact congrArg (fun z => a ++ (sep ++ z)) h

theorem splitOn_fields_no_sep (sep : Char) (s : GoString) :
    ∀ f ∈ splitOn sep s, sep ∉ f := by
  induction s with
  | nil => simp [splitOn]
  | cons c cs ih =>
    rw [splitOn]
    split_ifs with hc
    · intro f hf
      rcases List.mem_cons.mp hf with h | h
      · subst h; simp
      · exact ih f h
    · cases hs : splitOn sep cs with
      | nil => exact absurd hs (splitOn_ne_nil sep cs)
      | cons g gs =>
        rw [hs] at ih
        intro f hf
        simp only at hf
        rcases List.mem_cons.mp hf with h | h
        · subst h
          intro hm
          rcases List.mem_cons.mp hm with h2 | h2
          · exact hc h2.symm
          · exact ih g (List.mem_cons_self _ _) h2
        · exact ih f (List.mem_cons_of_mem _ h)

theorem cleanElems_kept (rooted : Bool) (es stack : List GoString) :
    ∀ x ∈ cleanElems rooted stack es, x ∈ stack ∨ (x ∈ es ∧ x ≠ [] ∧ x ≠ ['.']) := by
  induction es generalizing stack with
  | nil =>
    intro x hx
    simp only [cleanElems, List.mem_reverse] at hx
    exact Or.inl hx
  | cons e es ih =>
    intro x hx
    have hpush : ∀ st : List GoString,
        (∀ y ∈ st, y ∈ stack ∨ (y ∈ e :: es ∧ y ≠ [] ∧ y ≠ ['.'])) →
        x ∈ cleanElems rooted st es → x ∈ stack ∨ (x ∈ e :: es ∧ x ≠ [] ∧ x ≠ ['.']) := by
      intro st hst hx2
      rcases ih st x hx2 with h | h
      · exact hst x h
      · exact Or.inr ⟨List.mem_cons_of_mem _ h.1, h.2⟩
    have hdots : e = ['.', '.'] → e ∈ e :: es ∧ e ≠ [] ∧ e ≠ ['.'] := by
      intro h2
      exact ⟨List.mem_cons_self _ _, by rw [h2]; simp, by rw [h2]; simp⟩
    have hplain : ¬ (e = [] ∨ e = ['.']) → e ∈ e :: es ∧ e ≠ [] ∧ e ≠ ['.'] := by
      intro h1
      exact ⟨List.mem_cons_self _ _, fun h => h1 (Or.inl h), fun h => h1 (Or.inr h)⟩
    cases stack with
    | nil =>
      simp only [cleanElems] at hx
      split_ifs at hx with h1 h2 h3
      · exact hpush [] (by simp) hx
      · exact hpush [] (by simp) hx
      · refine hpush [e] ?_ hx
        intro y hy
        simp only [List.mem_singleton] at hy
        subst hy
        exact Or.inr (hdots h2)
      · refine hpush [e] ?_ hx
        intro y hy
        simp only [List.mem_singleton] at hy
        subst hy
        exact Or.inr (hplain h1)
    | cons top below =>
      simp only [cleanElems] at hx
      split_ifs at hx with h1 h2 h3
      · exact hpush _ (fun y hy => Or.inl hy) hx
      · refine hpush _ ?_ hx
        intro y hy
        rcases List.mem_cons.mp hy with h | h
        · subst h
          exact Or.inr (hdots h2)
        · exact Or.inl h
      · exact hpush _ (fun y hy => Or.inl (List.mem_cons_of_mem _ hy)) hx
      · refine hpush _ ?_ hx
        intro y hy
        rcases List.mem_cons.mp hy with h | h
        · subst h
          exact Or.inr (hplain h1)
        · exact Or.inl h

theorem intercalate_cons_shape (a : GoString) (t : List GoString) (ha : a ≠ [])
    (ha2 : a ≠ ['.']) (ha3 : '/' ∉ a) :
    List.intercalate ['/'] (a :: t) ≠ [] ∧ List.intercalate ['/'] (a :: t) ≠ ['.']
      ∧ List.intercalate ['/'] (a :: t) ≠ ['/'] := by
  cases t with
  | nil =>
    have h3 : a ≠ ['/'] := fun h => ha3 (by rw [h]; simp)
    simp [List.intercalate, ha, ha2, h3]
  | cons b t2 =>
    simp only [List.intercalate, List.intersperse, List.flatten_cons]
    cases a with
    | nil => exact absurd rfl ha
    | cons x xs =>
      refine ⟨by simp, ?_, ?_⟩
      · intro h
        have hl := congrArg List.length h
        simp at hl
      · intro h
        have hl := congrArg List.length h
        simp at hl

/-- Cleaning a non-empty path followed by a slash and a plain element keeps the
cleaned path and appends the element. -/
theorem filepathClean_append_plain (root name : GoString) (hroot : root ≠ [])
    (hn : PlainElement name) :
    filepathClean (root ++ '/' :: name)
      = if filepathClean root = ['/'] then '/' :: name
        else if filepathClean root = ['.'] then name
        else filepathClean root ++ '/' :: name := by
  cases root with
  | nil => exact absurd rfl hroot
  | cons c cs =>
    have hsplit : splitOn '/' (c :: cs ++ '/' :: name) = splitOn '/' (c :: cs) ++ [name] := by
      rw [splitOn_append_sep, splitOn_no_sep '/' name hn.2.1]
    have hne : name ≠ [] := hn.1
    simp only [List.cons_append] at hsplit
    simp only [filepathClean, List.cons_append, hsplit, cleanElems_append_plain _ name hn]
    cases hE : cleanElems (decide (c = '/')) [] (splitOn '/' (c :: cs)) with
    | nil =>
      by_cases hc : c = '/'
      · simp [List.intercalate, hc]
      · simp [List.intercalate, hc, hne]
    | cons a t =>
      rw [intercalate_append_single _ _ _ (by simp)]
      have hk := cleanElems_kept (decide (c = '/')) (splitOn '/' (c :: cs)) [] a
        (by rw [hE]; exact List.mem_cons_self _ _)
      have ha : a ∈ splitOn '/' (c :: cs) ∧ a ≠ [] ∧ a ≠ ['.'] := by
        rcases hk with h | h
        · simp at h
        · exact h
      obtain ⟨hb1, hb2, hb3⟩ := intercalate_cons_shape a t ha.2.1 ha.2.2
        (splitOn_fields_no_sep '/' _ a ha.1)
      by_cases hc : c = '/'
      · simp [hc, hb1]
      · simp [hc, hb1, hb2, hb3]

theorem filepathClean_plain (name : GoString) (hn : PlainElement name) :
    filepathClean name = name := by
  obtain ⟨h1, h2, h3, h4⟩ := hn
  cases name with
  | nil => exact absurd rfl h1
  | cons c cs =>
    have hc : ¬ c = '/' := fun e => h2 (e ▸ List.mem_cons_self _ _)
    simp [filepathClean, splitOn_no_sep '/' (c :: cs) h2, cleanElems, h3, h4, hc,
      List.intercalate]

/-- The join of a directory and a plain element lies strictly below the cleaned
directory. -/
theorem join_plain_below (root name : GoString) (hn : PlainElement name) :
    strictlyBelow (filepathClean root) (filepathJoin [root, name]) = true := by
  have hne : name ≠ [] := hn.1
  have hhead : ∀ c cs, name = c :: cs → c ≠ '/' := by
    intro c cs h e
    exact hn.2.1 (by rw [h, e]; exact List.mem_cons_self _ _)
  have hrel : strictlyBelow ['.'] name = true := by
    obtain ⟨h1, h2, h3, h4⟩ := hn
    cases name with
    | nil => exact absurd rfl h1
    | cons c cs =>
      have hc := hhead c cs rfl
      have hpre : ¬ (['.', '.', '/'] <+: c :: cs) := by
        rintro ⟨t, ht⟩
        exact h2 (by rw [← ht]; simp)
      have hp1 : ['/'].isPrefixOf (c :: cs) = false := by
        rw [Bool.eq_false_iff]
        intro h
        obtain ⟨t, ht⟩ := List.isPrefixOf_iff_prefix.mp h
        exact hc (List.cons.inj ht).1.symm
      have hp3 : ['.', '.', '/'].isPrefixOf (c :: cs) = false := by
        rw [Bool.eq_false_iff]
        intro h
        exact hpre (List.isPrefixOf_iff_prefix.mp h)
      simp [strictlyBelow, h3, h4, hp1, hp3]
  by_cases hroot : root = []
  · subst hroot
    have hj : filepathJoin [[], name] = name := by
      simp [filepathJoin, hne, List.intercalate, filepathClean_plain name hn]
    rw [hj]
    exact hrel
  · have hj : filepathJoin [root, name] = filepathClean (root ++ '/' :: name) := by
      simp [filepathJoin, hroot, List.intercalate]
    rw [hj, filepathClean_append_plain root name hroot hn]
    by_cases h1 : filepathClean root = ['/']
    · rw [if_pos h1, h1]
      cases name with
      | nil => exact absurd rfl hne
      | cons c cs => simp [strictlyBelow]
    · rw [if_neg h1]
      by_cases h2 : filepathClean root = ['.']
      · rw [if_pos h2, h2]
        exact hrel
      · rw [if_neg h2]
        cases name with
        | nil => exact absurd rfl hne
        | cons c cs =>
          simp [strictlyBelow, h1, h2]

/-! ## Names of several path elements -/

theorem cleanElems_dotdot_stays (ys S : List GoString) :
    ['.', '.'] ∈ cleanElems false (S ++ [['.', '.']]) ys := by
  induction ys generalizing S with
  | nil => simp [cleanElems]
  | cons y ys ih =>
    cases S with
    | nil =>
      simp only [List.nil_append, cleanElems]
      split_ifs
      · exact ih []
      · exact ih [y]
      · simp_all
      · exact ih [y]
    | cons top below =>
      simp only [List.cons_append, cleanElems]
      split_ifs
      · exact ih (top :: below)
      · exact ih (y :: top :: below)
      · exact ih below
      · exact ih (y :: top :: below)

theorem cleanElems_skip (rooted : Bool) (st ys : List GoString) (y : GoString)
    (h : y = [] ∨ y = ['.']) :
    cleanElems rooted st (y :: ys) = cleanElems rooted st ys := by
  cases st <;> simp only [cleanElems, h, if_true]

theorem cleanElems_push (rooted : Bool) (st ys : List GoString) (y : GoString)
    (h : ¬ (y = [] ∨ y = ['.'])) (hdd : y ≠ ['.', '.']) :
    cleanElems rooted st (y :: ys) = cleanElems rooted (y :: st) ys := by
  cases st <;> simp only [cleanElems, h, if_false, hdd]

theorem cleanElems_on_base (rooted : Bool) (ys S B : List GoString)
    (hS : ∀ x ∈ S, x ≠ ['.', '.']) (hno : ['.', '.'] ∉ cleanElems false S ys) :
    cleanElems rooted (S ++ B) ys = B.reverse ++ cleanElems false S ys := by
  induction ys generalizing S with
  | nil => simp [cleanElems]
  | cons y ys ih =>
    by_cases hskip : y = [] ∨ y = ['.']
    · have h1 := cleanElems_skip false S ys y hskip
      have h2 := cleanElems_skip rooted (S ++ B) ys y hskip
      rw [h1] at hno ⊢
      rw [h2]
      exact ih S hS hno
    · by_cases hdd : y = ['.', '.']
      · cases S with
        | nil =>
          exfalso
          apply hno
          simp only [cleanElems, hskip, if_false, hdd, if_true]
          exact cleanElems_dotdot_stays ys []
        | cons top below =>
          have htop : top ≠ ['.', '.'] := hS top (List.mem_cons_self _ _)
          have h1 : cleanElems false (top :: below) (y :: ys) = cleanElems false below ys := by
            simp [cleanElems, hskip, hdd, htop]
          have h2 : cleanElems rooted (top :: below ++ B) (y :: ys)
              = cleanElems rooted (below ++ B) ys := by
            simp [cleanElems, hskip, hdd, htop]
          rw [h1] at hno ⊢
          rw [h2]
          exact ih below (fun x hx => hS x (List.mem_cons_of_mem _ hx)) hno
      · have h1 := cleanElems_push false S ys y hskip hdd
        have h2 : cleanElems rooted (S ++ B) (y :: ys)
            = cleanElems rooted (y :: S ++ B) ys :=
          cleanElems_push rooted (S ++ B) ys y hskip hdd
        rw [h1] at hno ⊢
        rw [h2]
        refine ih (y :: S) ?_ hno
        intro x hx
        rcases List.mem_cons.mp hx with h | h
        · rw [h]; exact hdd
        · exact hS x h

theorem cleanElems_append (rooted : Bool) (xs st : List GoString) :
    ∃ B, cleanElems rooted st xs = B.reverse
      ∧ ∀ ys, cleanElems rooted st (xs ++ ys) = cleanElems rooted B ys := by
  induction xs generalizing st with
  | nil => exact ⟨st, by simp [cleanElems], fun ys => rfl⟩
  | cons x xs ih =>
    cases st with
    | nil =>
      simp only [List.cons_append, cleanElems]
      split_ifs <;> exact ih _
    | cons top below =>
      simp only [List.cons_append, cleanElems]
      split_ifs <;> exact ih _

/-- Cleaning the elements of a path followed by those of a name that stays
below: the cleaned elements of the path, then those of the name. -/
theorem cleanElems_path_name (rooted : Bool) (xs ys : List GoString)
    (hno : ['.', '.'] ∉ cleanElems false [] ys) :
    cleanElems rooted [] (xs ++ ys) = cleanElems rooted [] xs ++ cleanElems false [] ys := by
  obtain ⟨B, hB, happ⟩ := cleanElems_append rooted xs []
  rw [happ ys, hB]
  have h := cleanElems_on_base rooted ys [] B (by simp) hno
  simpa using h

theorem intercalate_cons_cons (sep a b : GoString) (t : List GoString) :
    List.intercalate sep (a :: b :: t) = a ++ sep ++ List.intercalate sep (b :: t) := by
  simp [List.intercalate, List.intersperse]

theorem intercalate_append_ne (sep : GoString) (xs ys : List GoString)
    (hx : xs ≠ []) (hy : ys ≠ []) :
    List.intercalate sep (xs ++ ys)
      = List.intercalate sep xs ++ sep ++ List.intercalate sep ys := by
  induction xs with
  | nil => exact absurd rfl hx
  | cons a t ih =>
    cases t with
    | nil =>
      cases ys with
      | nil => exact absurd rfl hy
      | cons b u =>
        rw [List.singleton_append, intercalate_cons_cons]
        simp [List.intercalate]
    | cons b t2 =>
      have h := ih (by simp)
      rw [List.cons_append, List.cons_append, intercalate_cons_cons, ← List.cons_append, h,
        intercalate_cons_cons]
      simp

/-- A relative path whose first element is a plain element lies strictly below
the current directory. -/
theorem strictlyBelow_dot (a rest : GoString) (ha : PlainElement a)
    (hrest : rest = [] ∨ ∃ r, rest = '/' :: r) :
    strictlyBelow ['.'] (a ++ rest) = true := by
  obtain ⟨h1, h2, h3, h4⟩ := ha
  match a, h1, h2, h3, h4 with
  | [x], _, h2, h3, _ =>
    have hx1 : x ≠ '/' := fun e => h2 (by simp [e])
    have hx2 : x ≠ '.' := fun e => h3 (by simp [e])
    rcases hrest with h | ⟨r, h⟩ <;> subst h <;>
      simp [strictlyBelow, List.isPrefixOf, hx1, hx2, Ne.symm hx1, Ne.symm hx2]
  | [x, y], _, h2, _, h4 =>
    have hx1 : x ≠ '/' := fun e => h2 (by simp [e])
    have hxy : ¬ (x = '.' ∧ y = '.') := fun e => h4 (by simp [e.1, e.2])
    have hxy2 : ¬ ('.' = x ∧ '.' = y) := fun e => hxy ⟨e.1.symm, e.2.symm⟩
    rcases hrest with h | ⟨r, h⟩ <;> subst h <;>
      simp [strictlyBelow, List.isPrefixOf, hx1, Ne.symm hx1, hxy]
    exact not_and_or.mp hxy2
  | x :: y :: z :: l, _, h2, _, _ =>
    have hx1 : x ≠ '/' := fun e => h2 (by simp [e])
    have hz : z ≠ '/' := fun e => h2 (by simp [e])
    simp [strictlyBelow, List.isPrefixOf, hx1, Ne.symm hx1, hz, Ne.symm hz]

theorem intercalate_elems_shape (a : GoString) (t : List GoString) :
    ∃ rest, List.intercalate ['/'] (a :: t) = a ++ rest
      ∧ (rest = [] ∨ ∃ r, rest = '/' :: r) := by
  cases t with
  | nil => exact ⟨[], by simp [List.intercalate], Or.inl rfl⟩
  | cons b u =>
    refine ⟨'/' :: List.intercalate ['/'] (b :: u), ?_, Or.inr ⟨_, rfl⟩⟩
    rw [intercalate_cons_cons]
    simp

/-- The first cleaned element of a name that stays below is a plain element. -/
theorem cleanNameElems_head_plain (name a : GoString) (t : List GoString)
    (h : cleanNameElems name = a :: t) (hno : ['.', '.'] ∉ cleanNameElems name) :
    PlainElement a := by
  have hmem : a ∈ cleanNameElems name := by rw [h]; exact List.mem_cons_self _ _
  have hk := cleanElems_kept false (splitOn '/' name) [] a hmem
  rcases hk with hk | ⟨h1, h2, h3⟩
  · simp at hk
  · exact ⟨h2, splitOn_fields_no_sep '/' name a h1, h3, fun e => hno (e ▸ hmem)⟩

/-- Cleaning a non-empty path followed by a slash and a name that stays below
keeps the cleaned path and appends the cleaned name. -/
theorem filepathClean_append_name (root name : GoString) (hroot : root ≠ [])
    (hn : StaysBelow name) :
    filepathClean (root ++ '/' :: name)
      = if filepathClean root = ['/'] then
          '/' :: List.intercalate ['/'] (cleanNameElems name)
        else if filepathClean root = ['.'] then List.intercalate ['/'] (cleanNameElems name)
        else filepathClean root ++ '/' :: List.intercalate ['/'] (cleanNameElems name) := by
  obtain ⟨hne, hno⟩ := hn
  cases hN : cleanNameElems name with
  | nil => exact absurd hN hne
  | cons b u =>
    have hb := cleanNameElems_head_plain name b u hN hno
    obtain ⟨rest, hshape, -⟩ := intercalate_elems_shape b u
    have hn1 : List.intercalate ['/'] (b :: u) ≠ [] := by
      rw [hshape]
      intro e
      exact hb.1 (List.append_eq_nil.mp e).1
    cases root with
    | nil => exact absurd rfl hroot
    | cons c cs =>
      have hsplit : splitOn '/' (c :: (cs ++ '/' :: name))
          = splitOn '/' (c :: cs) ++ splitOn '/' name := by
        rw [← List.cons_append, splitOn_append_sep]
      have hclean := cleanElems_path_name (decide (c = '/')) (splitOn '/' (c :: cs))
        (splitOn '/' name) hno
      simp only [cleanNameElems] at hN
      simp only [filepathClean, List.cons_append, hsplit, hclean, hN]
      cases hE : cleanElems (decide (c = '/')) [] (splitOn '/' (c :: cs)) with
      | nil =>
        have hnil : List.intercalate ['/'] ([] : List GoString) = [] := rfl
        by_cases hc : c = '/'
        · simp [hc, hnil]
        · simp [hc, hn1, hnil]
      | cons a t =>
        rw [intercalate_append_ne _ _ _ (by simp) (by simp)]
        have hk := cleanElems_kept (decide (c = '/')) (splitOn '/' (c :: cs)) [] a
          (by rw [hE]; exact List.mem_cons_self _ _)
        have ha : a ∈ splitOn '/' (c :: cs) ∧ a ≠ [] ∧ a ≠ ['.'] := by
          rcases hk with h | h
          · simp at h
          · exact h
        obtain ⟨hb1, hb2, hb3⟩ := intercalate_cons_shape a t ha.2.1 ha.2.2
          (splitOn_fields_no_sep '/' _ a ha.1)
        by_cases hc : c = '/'
        · simp [hc, hb1]
        · simp [hc, hb1, hb2, hb3]

/-- The cleaned name of a name that stays below is a relative path strictly
below the current directory, and it is not empty. -/
theorem cleanName_below_dot (name : GoString) (hn : StaysBelow name) :
    strictlyBelow ['.'] (List.intercalate ['/'] (cleanNameElems name)) = true
      ∧ ∃ x l, List.intercalate ['/'] (cleanNameElems name) = x :: l := by
  obtain ⟨hne, hno⟩ := hn
  cases hN : cleanNameElems name with
  | nil => exact absurd hN hne
  | cons b u =>
    have hb := cleanNameElems_head_plain name b u hN hno
    obtain ⟨rest, hshape, hrest⟩ := intercalate_elems_shape b u
    rw [hshape]
    refine ⟨strictlyBelow_dot b rest hb hrest, ?_⟩
    cases b with
    | nil => exact absurd rfl hb.1
    | cons x xs => exact ⟨x, xs ++ rest, rfl⟩

/-- The join of a directory and a name that stays below lies strictly below the
cleaned directory; with the empty directory, which `filepath.Join` ignores, the
name must not start with a slash. -/
theorem join_name_below (root name : GoString) (hn : StaysBelow name)
    (hr : root ≠ [] ∨ name.head? ≠ some '/') :
    strictlyBelow (filepathClean root) (filepathJoin [root, name]) = true := by
  obtain ⟨hbelow, x, l, hx⟩ := cleanName_below_dot name hn
  have hname : name ≠ [] := by
    intro e
    apply hn.1
    rw [e]
    rfl
  by_cases hroot : root = []
  · subst hroot
    have hhead : name.head? ≠ some '/' := by
      rcases hr with h | h
      · exact absurd rfl h
      · exact h
    cases name with
    | nil => exact absurd rfl hname
    | cons c cs =>
      have hc : ¬ c = '/' := fun e => hhead (by simp [e])
      have hne2 : List.intercalate ['/'] (cleanElems false [] (splitOn '/' (c :: cs))) ≠ [] := by
        have := hx
        simp only [cleanNameElems] at this
        rw [this]
        simp
      have hj1 : filepathJoin [[], c :: cs] = filepathClean (c :: cs) := by
        simp [filepathJoin, List.intercalate]
      have hj : filepathJoin [[], c :: cs]
          = List.intercalate ['/'] (cleanNameElems (c :: cs)) := by
        rw [hj1]
        simp only [filepathClean, cleanNameElems, hc, decide_False, Bool.false_eq_true,
          if_false]
        rw [if_neg hne2]
      rw [hj]
      exact hbelow
  · have hj : filepathJoin [root, name] = filepathClean (root ++ '/' :: name) := by
      simp [filepathJoin, hroot, List.intercalate]
    rw [hj, filepathClean_append_name root name hroot hn]
    by_cases h1 : filepathClean root = ['/']
    · rw [if_pos h1, h1, hx]
      simp [strictlyBelow]
    · rw [if_neg h1]
      by_cases h2 : filepathClean root = ['.']
      · rw [if_pos h2, h2]
        exact hbelow
      · rw [if_neg h2, hx]
        simp [strictlyBelow, h1, h2]

/-- C17 fails as stated.  With the mount root `/mnt/lvm` and the volume group
`vg`: the name `..` gives the mountpoint `/mnt` and the device `/dev`, the name
`../x` gives the mountpoint `/mnt/x`, the name `../sda` gives the device
`/dev/sda`, and the empty name gives the mount root itself; none is strictly
below its root.  `DockerUnmountVolume` on the name `..` runs `umount /dev` and
`rmdir /mnt`.  With an empty mount root the name `/etc` gives the mountpoint
`/etc`, which is not below the current directory. -/
theorem paths_escape_root :
    getMountpoint exampleDriver "..".toList = "/mnt".toList ∧
    getMountpoint exampleDriver "../x".toList = "/mnt/x".toList ∧
    getMountpoint exampleDriver [] = "/mnt/lvm".toList ∧
    getDeviceName exampleDriver "..".toList = "/dev".toList ∧
    getDeviceName exampleDriver "../sda".toList = "/dev/sda".toList ∧
    strictlyBelow "/mnt/lvm".toList (getMountpoint exampleDriver "..".toList) = false ∧
    strictlyBelow "/mnt/lvm".toList (getMountpoint exampleDriver "../x".toList) = false ∧
    strictlyBelow "/mnt/lvm".toList (getMountpoint exampleDriver []) = false ∧
    strictlyBelow "/dev/vg".toList (getDeviceName exampleDriver "../sda".toList) = false ∧
    (DockerUnmountVolume exampleDriver (listingWorld [] [] (.exited 0)) [] "..".toList).1
      = [Action.exec "umount".toList ["/dev".toList],
         Action.exec "rmdir".toList ["/mnt".toList]] ∧
    getMountpoint emptyRootDriver "/etc".toList = "/etc".toList ∧
    strictlyBelow (filepathClean emptyRootDriver.MountRoot)
      (getMountpoint emptyRootDriver "/etc".toList) = false := by
  refine ⟨by decide, by decide, by decide, by decide, by decide, by decide, by decide,
    by decide, by decide, by decide, by decide, by decide⟩

/-- C17, amended.  For every volume group name and every volume name that,
read as a relative path and cleaned, keeps at least one element and no `..`
element (so also for names of several elements such as `a/b`):
`getMountpoint name` lies strictly below the cleaned mount root, for every
mount root that is not empty and, when the name does not start with a slash,
for the empty one too; `getDeviceName name` lies strictly below the cleaned
`/dev/<group>`.  When the cleaned mount root is neither `/` nor `.` the
mountpoint is the cleaned mount root, a slash and the cleaned name; when the
group name is a plain element the device is `/dev/<group>`, a slash and the
cleaned name; the cleaned name of a plain element is the element itself. -/
theorem paths_below_root_of_name (d : VolumeDriver) (name : GoString)
    (hn : StaysBelow name) :
    ((d.MountRoot ≠ [] ∨ name.head? ≠ some '/') →
      strictlyBelow (filepathClean d.MountRoot) (getMountpoint d name) = true) ∧
    strictlyBelow (filepathClean ("/dev/".toList ++ d.VolumeGroupName))
      (getDeviceName d name) = true ∧
    (d.MountRoot ≠ [] → filepathClean d.MountRoot ≠ ['/'] →
      filepathClean d.MountRoot ≠ ['.'] →
      getMountpoint d name
        = filepathClean d.MountRoot ++ '/' :: List.intercalate ['/'] (cleanNameElems name)) ∧
    (PlainElement d.VolumeGroupName →
      getDeviceName d name
        = "/dev/".toList ++ d.VolumeGroupName
          ++ '/' :: List.intercalate ['/'] (cleanNameElems name)) ∧
    (PlainElement name → List.intercalate ['/'] (cleanNameElems name) = name) := by
  have hdev : getDeviceName d name
      = filepathJoin ["/dev/".toList ++ d.VolumeGroupName, name] := by
    simp [getDeviceName, filepathJoin, List.intercalate]
  refine ⟨fun hr => join_name_below d.MountRoot name hn hr, ?_, ?_, ?_, ?_⟩
  · rw [hdev]
    exact join_name_below _ name hn (Or.inl (by simp))
  · intro hroot h1 h2
    have hj : filepathJoin [d.MountRoot, name] = filepathClean (d.MountRoot ++ '/' :: name) := by
      simp [filepathJoin, hroot, List.intercalate]
    rw [getMountpoint, hj, filepathClean_append_name _ name hroot hn, if_neg h1, if_neg h2]
  · intro hvg
    have hd : filepathClean "/dev".toList = "/dev".toList := by decide
    have hroot : filepathClean ("/dev".toList ++ '/' :: d.VolumeGroupName)
        = "/dev".toList ++ '/' :: d.VolumeGroupName := by
      rw [filepathClean_append_plain _ _ (by decide) hvg, hd]
      rw [if_neg (by decide), if_neg (by decide)]
    have hj : filepathJoin ["/dev/".toList ++ d.VolumeGroupName, name]
        = filepathClean (("/dev".toList ++ '/' :: d.VolumeGroupName) ++ '/' :: name) := by
      simp [filepathJoin, List.intercalate]
    rw [hdev, hj, filepathClean_append_name _ name (by simp) hn, hroot]
    rw [if_neg (by simp), if_neg (by simp)]
    simp
  · intro hp
    have h2 : '/' ∉ name := hp.2.1
    simp [cleanNameElems, splitOn_no_sep '/' name h2, cleanElems, hp.1, hp.2.2.1, hp.2.2.2,
      List.intercalate]

/-- Witness of C17: the names `a/b` and `vol1` in the example configuration. -/
theorem paths_below_root_of_name_witness :
    strictlyBelow (filepathClean exampleDriver.MountRoot)
      (getMountpoint exampleDriver "a/b".toList) = true ∧
    strictlyBelow (filepathClean ("/dev/".toList ++ exampleDriver.VolumeGroupName))
      (getDeviceName exampleDriver "a/b".toList) = true ∧
    getMountpoint exampleDriver "vol1".toList
      = filepathClean exampleDriver.MountRoot
        ++ '/' :: List.intercalate ['/'] (cleanNameElems "vol1".toList) :=
  ⟨(paths_below_root_of_name exampleDriver "a/b".toList (by decide)).1 (Or.inl (by decide)),
   (paths_below_root_of_name exampleDriver "a/b".toList (by decide)).2.1,
   (paths_below_root_of_name exampleDriver "vol1".toList (by decide)).2.2.1 (by decide)
     (by decide) (by decide)⟩

/-! ## The protocol layer -/

theorem getName_createRequest (w : List Response) (name size : GoString) :
    getName w (createRequest name size) = (w, { body := [] }, some name) := by
  simp [getName, decodeRequest, createRequest, singleDocumentRequest, getValue, mapLookup]

theorem getOptions_end_of_body : (getOptions { body := [] }).2.isNone = true := by
  simp [getOptions, decodeRequest]

/-- C13, evaluated.  For the request body `{"Name": name, "Opts": {"Size": s}}`
`getName` returns the name and leaves the body at its end; a decoder given the
whole body would find the option `size` = `s`, but the decoder `getOptions`
creates after `getName` finds the end of the body and `getOptions` returns the
`nil` map.  So `volumeDriverCreate` performs the effects of
`DockerCreateVolume` without options: for the name `data` with `Size` `50` and
the default size 256 it runs `lvcreate -L 256M`, not `lvcreate -L 50M`. -/
theorem create_request_size_ignored :
    (∀ (w : List Response) (name size : GoString),
      getName w (createRequest name size) = (w, { body := [] }, some name)) ∧
    (∀ name size : GoString,
      (getOptions (createRequest name size)).2.map (fun opts => opts "size".toList)
        = some (some size)) ∧
    (getOptions { body := [] }).2.isNone = true ∧
    (∀ (d : VolumeDriver) (wld : World) (tr : Trace) (w : List Response)
        (name size : GoString),
      (volumeDriverCreate d wld tr w (createRequest name size)).1
        = (DockerCreateVolume d wld tr name noOptions).1) ∧
    volumeDriverCreate exampleDriver (listingWorld [] [] (.exited 0)) [] []
        (createRequest "data".toList "50".toList)
      = ([mountListing, lvsListing exampleDriver,
          Action.exec "lvcreate".toList ["-L".toList, "256M".toList, "-n".toList,
            "data".toList, "vg".toList],
          mkfsAction exampleDriver "data".toList],
         .val [{ code := 200, body := [("Err".toList, .str [])] }]) := by
  refine ⟨getName_createRequest, ?_, getOptions_end_of_body, ?_, by decide⟩
  · intro name size
    simp [getOptions, decodeRequest, createRequest, singleDocumentRequest, getMap, getValue,
      mapLookup, sizeOption]
  · intro d wld tr w name size
    have hopt : (getOptions { body := [] }).2 = none := by
      simp [getOptions, decodeRequest]
    simp only [volumeDriverCreate, getName_createRequest, hopt, Option.getD_none]
    cases DockerCreateVolume d wld tr name noOptions with
    | mk t res => cases res <;> rfl

/-- C14.  For a request whose document `decodeRequest` decodes to the map `m`:
when `m` has no key `Name`, or the value under `Name` is not a JSON string,
`getName` returns no name and writes the one response
`{"Err": "Illegal request"}` with status 200, and each of the handlers create,
remove, mount, unmount, path and get then leaves the trace of effects as it was
and the responses at that single one; when the value under `Name` is the
string `name`, `getName` returns `name` and writes nothing. -/
theorem getName_illegal_request (w : List Response) (r r1 : Request)
    (m : List (GoString × Json)) (h : decodeRequest r = (r1, .ok m)) :
    ((mapLookup m "Name".toList = none
        ∨ ∃ v, mapLookup m "Name".toList = some v ∧ ∀ s, v ≠ .str s) →
      getName w r = (w ++ [illegalRequestResponse], r1, none) ∧
      ∀ (d : VolumeDriver) (wld : World) (tr : Trace),
        volumeDriverCreate d wld tr w r = (tr, .val (w ++ [illegalRequestResponse])) ∧
        volumeDriverRemove d wld tr w r = (tr, .val (w ++ [illegalRequestResponse])) ∧
        volumeDriverMount d wld tr w r = (tr, .val (w ++ [illegalRequestResponse])) ∧
        volumeDriverUnmount d wld tr w r = (tr, .val (w ++ [illegalRequestResponse])) ∧
        volumeDriverPath d wld tr w r = (tr, .val (w ++ [illegalRequestResponse])) ∧
        volumeDriverGet d wld tr w r = (tr, .val (w ++ [illegalRequestResponse]))) ∧
    (∀ name, mapLookup m "Name".toList = some (.str name) →
      getName w r = (w, r1, some name)) := by
  constructor
  · intro hcase
    have hv : getValue m "Name".toList = none := by
      rcases hcase with h0 | ⟨v, hv, hs⟩
      · simp only [getValue, h0]
      · cases v with
        | str s => exact absurd rfl (hs s)
        | null => simp only [getValue, hv]
        | bool b => simp only [getValue, hv]
        | number t => simp only [getValue, hv]
        | arr l => simp only [getValue, hv]
        | obj f => simp only [getValue, hv]
    have hg : getName w r = (w ++ [illegalRequestResponse], r1, none) := by
      simp only [getName, h, hv, writeJson, illegalRequestResponse]
    refine ⟨hg, fun d wld tr => ?_⟩
    simp only [volumeDriverCreate, volumeDriverRemove, volumeDriverMount, volumeDriverUnmount,
      volumeDriverPath, volumeDriverGet, hg, and_self]
  · intro name hn
    have hv : getValue m "Name".toList = some name := by
      simp only [getValue, hn]
    simp only [getName, h, hv]

/-- Witness of C14: the documents `{"Opts": {}}`, `{"Name": 7}` and
`{"Name": "vol1"}`. -/
theorem getName_illegal_request_witness :
    (getName [] (singleDocumentRequest (.obj [("Opts".toList, .obj [])]))).1
      = [] ++ [illegalRequestResponse] ∧
    volumeDriverRemove exampleDriver failingWorld []
        [] (singleDocumentRequest (.obj [("Name".toList, .number "7".toList)]))
      = ([], .val ([] ++ [illegalRequestResponse])) ∧
    (getName [] (singleDocumentRequest (.obj [("Name".toList, .str "vol1".toList)]))).2.2
      = some "vol1".toList :=
  ⟨congrArg Prod.fst
      (((getName_illegal_request [] (singleDocumentRequest (.obj [("Opts".toList, .obj [])]))
        { body := [] } [("Opts".toList, .obj [])] rfl).1 (Or.inl rfl)).1),
   ((((getName_illegal_request [] (singleDocumentRequest
        (.obj [("Name".toList, .number "7".toList)]))
        { body := [] } [("Name".toList, .number "7".toList)] rfl).1
        (Or.inr ⟨.number "7".toList, rfl, fun s hs => by cases hs⟩)).2
        exampleDriver failingWorld []).2.1),
   congrArg (fun x => x.2.2)
      ((getName_illegal_request [] (singleDocumentRequest
        (.obj [("Name".toList, .str "vol1".toList)]))
        { body := [] } [("Name".toList, .str "vol1".toList)] rfl).2 "vol1".toList
        rfl)⟩

end LvmVolumeDriver
